import Mathlib

/-!
# Verification of the pypng PNG codec (`lib/png.py`)

A shallow embedding of `lib/png.py` (revision under verification) in Lean 4,
together with theorems settling the frozen specification claims.

Modelling conventions:
* Python byte strings / `array('B')` buffers are `List Nat` (each element a
  byte value `< 256`; totality is obtained with `getD _ 0` where Python would
  raise `IndexError`, and theorems carry the in-range hypotheses).
* Python 2 integers are `Nat` or `Int`; `& 0xff` becomes `% 256`, integer `/`
  on non-negative values becomes `Nat` division (both floor).
* `struct.pack`/`unpack` of `!I`/`!H` are `packU32`/`packU16`/`beU32`.
* Exceptions become `Except PyErr`; distinct constructors record which Python
  exception the source raises (e.g. `struct.error`, the `ValueError` carrying
  a "checksum error" message, `AssertionError`, `NameError`).
* `zlib`'s crc32 is embedded bit-for-bit (reflected CRC-32, polynomial
  0xEDB88320).  `zlib`'s DEFLATE compressor is external library code, not part
  of this repository; it is modelled from the spec (section 4.6) as a lossless
  streaming codec, instantiated by the identity codec: `compress` emits its
  input immediately and `flush` emits nothing, which is a legal behaviour of a
  streaming compressor and makes every byte-level claim about the surrounding
  framing executable.
-/

/-- Python exception kinds raised by the code under verification.
`valueError` stands for the generic `ValueError` raises in `Writer.__init__`;
`checksumError` is the `ValueError('checksum error in %s chunk: ...')` raised
by `Reader.read_chunk`; `structError` is `struct.error` (raised by
`struct.unpack` on a buffer of the wrong length); `assertError` is a failing
`assert`; `nameError` is an unbound-name `NameError`; `indexError` is an
out-of-range string index. -/
inductive PyErr where
  | valueError
  | checksumError
  | structError
  | assertError
  | nameError
  | indexError
  | typeError
deriving DecidableEq

deriving instance DecidableEq for Except

/-! ## Byte-level primitives (`struct` module) -/

/-- `struct.pack("!I", n)`: big-endian unsigned 32-bit integer.  (Python's
`struct` raises for `n ≥ 2^32`; the claims only exercise in-range values, so
the embedding is total via `%`.) -/
def packU32 (n : Nat) : List Nat :=
  [n / 2 ^ 24 % 256, n / 2 ^ 16 % 256, n / 2 ^ 8 % 256, n % 256]

/-- `struct.pack("!H", n)`: big-endian unsigned 16-bit integer (total via `%`,
see `packU32`). -/
def packU16 (n : Nat) : List Nat := [n / 2 ^ 8 % 256, n % 256]

/-- `struct.unpack("!I", bs)` for a 4-byte list: big-endian 32-bit read.
(The reader unpacks the stored chunk CRC with the signed format `!i` and
compares it with `zlib.crc32`'s signed result; signed and unsigned views are
related by a bijection on 32-bit values, so equality of the `Nat` views is
equivalent and the embedding uses `Nat` throughout.) -/
def beU32 (bs : List Nat) : Nat := bs.foldl (fun a b => a * 256 + b) 0

/-! ## CRC-32 (`zlib.crc32`), reflected form, over `Nat` -/

/-- The bit-reversed CRC-32 polynomial. -/
def crcPoly : Nat := 0xEDB88320

/-- One bit step of the reflected CRC-32: shift right, conditionally XOR the
polynomial. -/
def crcStep (s : Nat) : Nat :=
  if s % 2 = 1 then (s / 2) ^^^ crcPoly else s / 2

/-- `n` iterations of `crcStep`. -/
def crcStepN : Nat → Nat → Nat
  | 0, s => s
  | n + 1, s => crcStepN n (crcStep s)

/-- Process one byte: XOR into the low bits, then 8 bit steps. -/
def crcByte (s b : Nat) : Nat := crcStepN 8 (s ^^^ b)

/-- Process a byte list from a raw register state. -/
def crcLoop (s : Nat) (l : List Nat) : Nat := l.foldl crcByte s

/-- `zlib.crc32(data, seed)`: pre- and post-inverted register.
`zlib.crc32(data)` is `crc32 data 0`. -/
def crc32 (data : List Nat) (seed : Nat) : Nat :=
  crcLoop (seed ^^^ 0xFFFFFFFF) data ^^^ 0xFFFFFFFF

/-! ## Chunk framer -/

/-- `Writer.write_chunk` (png.py:194-204): length, tag, payload, CRC over
tag then payload (the two chained `zlib.crc32` calls). -/
def write_chunk (tag data : List Nat) : List Nat :=
  packU32 data.length ++ tag ++ data ++ packU32 (crc32 data (crc32 tag 0))

/-- `Reader.read_chunk` (png.py:411-424).  `infile.read(n)` returns at most
`n` bytes (`take`); `struct.unpack` on a short buffer raises `struct.error`;
a CRC mismatch raises the checksum `ValueError`.  Returns the tag, the
payload, and the unconsumed remainder of the stream. -/
def read_chunk (s : List Nat) : Except PyErr ((List Nat × List Nat) × List Nat) :=
  if s.length < 8 then .error .structError else
  let len := beU32 (s.take 4)
  let tag := (s.drop 4).take 4
  let body := s.drop 8
  let data := body.take len
  let rest1 := body.drop len
  if rest1.length < 4 then .error .structError else
  let stored := beU32 (rest1.take 4)
  let verify := crc32 data (crc32 tag 0)
  if stored ≠ verify then .error .checksumError else
  .ok ((tag, data), rest1.drop 4)

/-! ## Python sequence helpers (slices with step, negative indexing) -/

/-- Python `range(start, stop, step)` for `step > 0` (the only case the source
uses; `range` with step 0 raises in Python and is modelled as empty). -/
def pyRange (start stop step : Nat) : List Nat :=
  (List.range ((stop - start + step - 1) / step)).map (fun k => start + k * step)

/-- Number of indices selected by the Python extended slice
`[start:stop:step]` on a sequence of length `len` (for `step > 0`). -/
def pySliceCount (start stop step len : Nat) : Nat :=
  (min stop len - start + step - 1) / step

/-- Python extended-slice read `l[start:stop:step]` (positive `step`,
non-negative bounds; out-of-range `stop` truncates at the length). -/
def pyGetSliceS (l : List Nat) (start stop step : Nat) : List Nat :=
  (List.range (pySliceCount start stop step l.length)).map
    (fun k => l.getD (start + k * step) 0)

/-- Python contiguous slice `l[a:b]` (non-negative bounds, truncating). -/
def pyGetSlice2 (l : List Nat) (a b : Nat) : List Nat := (l.drop a).take (b - a)

/-- Python extended-slice assignment `l[start:stop:step] = src` on an
`array('B')`: requires the selected index count to equal `len(src)` (else
`ValueError: attempt to assign array of size ... to extended slice`), and
replaces the element at each selected index `j = start + k*step < min stop len`
by `src[k]`. -/
def pySetSliceE (a : List Nat) (start stop step : Nat) (src : List Nat) :
    Except PyErr (List Nat) :=
  if pySliceCount start stop step a.length = src.length then
    .ok ((List.range a.length).map (fun j =>
      if start ≤ j ∧ j < min stop a.length ∧ (j - start) % step = 0 then
        src.getD ((j - start) / step) 0
      else a.getD j 0))
  else .error .valueError

/-- Python sequence index: a negative index wraps around from the end
(`l[-1]` is the last element).  In-range accesses are what the claims
exercise; out-of-range reads default to 0 for totality. -/
def pyIdx (len : Nat) (i : Int) : Nat :=
  (if i < 0 then (len : Int) + i else i).toNat

/-- Python read `a[i]` on an `array('B')`, with negative-index wraparound. -/
def pyGetA (a : Array Nat) (i : Int) : Nat := a.getD (pyIdx a.size i) 0

/-! ## `interleave_planes` (png.py:70-93) -/

/-- `interleave_planes(ipixels, apixels, width, height, ipsize, apsize)`.
The source performs no size validation: it concatenates both planes and then
overwrites by extended-slice assignment; any slice-length mismatch surfaces
as the `array` `ValueError`, and compatible-but-wrong sizes go unnoticed. -/
def interleave_planes (ipixels apixels : List Nat) (width height ipsize apsize : Nat) :
    Except PyErr (List Nat) :=
  let pixelcount := width * height
  let newpsize := ipsize + apsize
  let itotal := pixelcount * ipsize
  let atotal := pixelcount * apsize
  let newtotal := pixelcount * newpsize
  do
    let out1 ← (List.range ipsize).foldlM
      (fun out i => pySetSliceE out i newtotal newpsize (pyGetSliceS ipixels i itotal ipsize))
      (ipixels ++ apixels)
    (List.range apsize).foldlM
      (fun out i => pySetSliceE out (i + ipsize) newtotal newpsize (pyGetSliceS apixels i atotal apsize))
      out1

/-! ## zlib compression (external collaborator, modelled from the spec) -/

/-- Modelled from the spec (§4.6): the missing collaborator is zlib's
streaming DEFLATE compressor (`zlib.compressobj().compress`).  The spec
constrains it only to be a lossless streaming codec whose decompression
inverts it; the embedding instantiates it with the identity codec, a legal
streaming-compressor behaviour: each `compress` call emits exactly its input
bytes. -/
def zlibCompressPiece (s : List Nat) : List Nat := s

/-- Modelled from the spec (§4.6): `compressor.flush()` drains whatever the
compressor still buffers; the identity codec buffers nothing. -/
def zlibFlush : List Nat := []

/-- Modelled from the spec (§4.6): `zlib.decompress`, the inverse of the
identity codec. -/
def zlibDecompress (s : List Nat) : List Nat := s

/-! ## Writer (png.py:96-403) -/

/-- A Python value passed as `transparent`/`background`: either an `int` or a
tuple (modelled as a list of `int`s; the source checks `len(...) == 3` and
that the components are `int`s, which the typing here makes automatic). -/
inductive PyColor where
  | int (n : Int)
  | tuple (l : List Int)
deriving DecidableEq

/-- The shape validation `Writer.__init__` performs on `transparent` and
`background` (png.py:140-164): `none` if accepted, otherwise the exception it
raises.  In greyscale mode a non-`int` raises `ValueError`; in colour mode an
`int` makes `len(...)` raise `TypeError`, and a tuple of length ≠ 3 raises
`ValueError`. -/
def colorShapeErr (greyscale : Bool) (c : Option PyColor) : Option PyErr :=
  match c with
  | none => none
  | some (.int _) => if greyscale then none else some .typeError
  | some (.tuple l) =>
      if greyscale then some .valueError
      else if l.length = 3 then none else some .valueError

/-- The state of a constructed `Writer` (png.py:166-192).  (Named `PngWriter`
because Mathlib already declares `Writer`.) -/
structure PngWriter where
  width : Nat
  height : Nat
  transparent : Option PyColor
  background : Option PyColor
  gamma : Option ℚ
  greyscale : Bool
  has_alpha : Bool
  bytes_per_sample : Nat
  compression : Option Int
  chunk_limit : Nat
  color_depth : Nat
  color_type : Nat
  psize : Nat
deriving DecidableEq

/-- `Writer.__init__` (png.py:101-192): the validation checks in source
order, then the colour-model resolution (colour type and pixel stride). -/
def PngWriter.init (width height : Int) (transparent background : Option PyColor)
    (gamma : Option ℚ) (greyscale has_alpha : Bool) (bytes_per_sample : Int)
    (compression : Option Int) (chunk_limit : Nat) : Except PyErr PngWriter :=
  if width ≤ 0 ∨ height ≤ 0 then .error .valueError
  else if has_alpha = true ∧ transparent.isSome then .error .valueError
  else if bytes_per_sample < 1 ∨ 2 < bytes_per_sample then .error .valueError
  else match colorShapeErr greyscale transparent with
  | some e => .error e
  | none => match colorShapeErr greyscale background with
    | some e => .error e
    | none =>
      let bps := bytes_per_sample.toNat
      let ctp : Nat × Nat × Nat :=
        if greyscale then
          if has_alpha then (1, 4, bps * 2) else (1, 0, bps)
        else
          if has_alpha then (3, 6, bps * 4) else (3, 2, bps * 3)
      .ok { width := width.toNat, height := height.toNat,
            transparent := transparent, background := background,
            gamma := gamma, greyscale := greyscale, has_alpha := has_alpha,
            bytes_per_sample := bps, compression := compression,
            chunk_limit := chunk_limit,
            color_depth := ctp.1, color_type := ctp.2.1, psize := ctp.2.2 }

/-- `struct.pack("!H", v)` for a Python `int` value (range errors are not
modelled; every claim supplies in-range components). -/
def packU16I (n : Int) : List Nat := packU16 n.toNat

/-- The tRNS/bKGD payload (png.py:223-239): `!1H` of the single greyscale
value or `!3H` of the colour triple.  (For a greyscale `int` the source
actually writes `struct.pack("!1H", *value)`, whose `*` unpacking of an `int`
raises `TypeError`; no claim exercises that path, and the payload modelled is
the one `pack("!1H", value)` would produce.) -/
def packColor16 (greyscale : Bool) (c : PyColor) : List Nat :=
  match c with
  | .int n => if greyscale then packU16I n else []
  | .tuple l => if greyscale then [] else (l.map packU16I).flatten

/-- Python `int(q)`: truncation toward zero. -/
def pyInt (q : ℚ) : Int := q.num.tdiv q.den

/-- The gAMA chunk payload (png.py:242-244):
`struct.pack("!L", int(self.gamma * 100000))`. -/
def gammaChunkPayload (g : ℚ) : List Nat := packU32 (pyInt (g * 100000)).toNat

def tagIHDR : List Nat := [73, 72, 68, 82]
def tagIDAT : List Nat := [73, 68, 65, 84]
def tagIEND : List Nat := [73, 69, 78, 68]
def tagTRNS : List Nat := [116, 82, 78, 83]
def tagBKGD : List Nat := [98, 75, 71, 68]
def tagGAMA : List Nat := [103, 65, 77, 65]

def pngSignature : List Nat := [137, 80, 78, 71, 13, 10, 26, 10]

/-- The IDAT accumulation loop of `Writer.write` (png.py:252-269): prefix
each scanline with the filter-type byte 0, flush the working buffer through
the compressor once it exceeds `chunk_limit` (emitting a chunk only when the
compressor produced bytes), then compress the remainder, flush, and emit a
final chunk when non-empty.  Returns the list of IDAT chunk payloads. -/
def idatLoop (chunk_limit : Nat) : List (List Nat) → List Nat → List (List Nat)
  | [], data =>
    let compressed := if data.length ≠ 0 then zlibCompressPiece data else []
    let flushed := zlibFlush
    if compressed.length ≠ 0 ∨ flushed.length ≠ 0 then [compressed ++ flushed] else []
  | scanline :: rest, data =>
    let data' := data ++ 0 :: scanline
    if data'.length > chunk_limit then
      (if (zlibCompressPiece data').length ≠ 0 then [zlibCompressPiece data'] else []) ++
        idatLoop chunk_limit rest []
    else idatLoop chunk_limit rest data'

/-- The IDAT chunk payloads `Writer.write` emits for a scanline sequence. -/
def idatPayloads (chunk_limit : Nat) (scanlines : List (List Nat)) : List (List Nat) :=
  idatLoop chunk_limit scanlines []

/-- `Writer.write` (png.py:206-272): signature, IHDR, optional tRNS/bKGD/gAMA,
IDAT chunks, IEND. -/
def PngWriter.write (w : PngWriter) (scanlines : List (List Nat)) (interlaced : Bool) : List Nat :=
  pngSignature ++
  write_chunk tagIHDR
    (packU32 w.width ++ packU32 w.height ++
      [w.bytes_per_sample * 8 % 256, w.color_type % 256, 0, 0,
       if interlaced then 1 else 0]) ++
  (match w.transparent with
   | none => []
   | some c => write_chunk tagTRNS (packColor16 w.greyscale c)) ++
  (match w.background with
   | none => []
   | some c => write_chunk tagBKGD (packColor16 w.greyscale c)) ++
  (match w.gamma with
   | none => []
   | some g => write_chunk tagGAMA (gammaChunkPayload g)) ++
  ((idatPayloads w.chunk_limit scanlines).map (write_chunk tagIDAT)).flatten ++
  write_chunk tagIEND []

/-- `Writer.array_scanlines` (png.py:331-340): the rows of the flat buffer in
top-to-bottom order, each `width * psize` bytes. -/
def PngWriter.array_scanlines (w : PngWriter) (pixels : List Nat) : List (List Nat) :=
  (List.range w.height).map
    (fun y => pyGetSlice2 pixels (y * (w.width * w.psize)) ((y + 1) * (w.width * w.psize)))

/-- The fixed Adam7 pass table (png.py:375-381). -/
def adam7 : List (Nat × Nat × Nat × Nat) :=
  [(0, 0, 8, 8), (4, 0, 8, 8), (0, 4, 4, 8), (2, 0, 4, 4),
   (0, 2, 2, 4), (1, 0, 2, 2), (0, 1, 1, 2)]

/-- One row of `Writer.array_scanlines_interlace` (png.py:387-403): the
`xstep == 1` branch slices the whole stored row; otherwise a row buffer of
`psize * ceil((width - xstart) / xstep)` bytes is filled by one extended-slice
assignment per byte-within-pixel position. -/
def interlaceRow (pixels : List Nat) (psize row_bytes width xstart xstep y : Nat) :
    Except PyErr (List Nat) :=
  if xstep = 1 then .ok (pyGetSlice2 pixels (y * row_bytes) ((y + 1) * row_bytes))
  else
    let row_len := psize * ((width - xstart + xstep - 1) / xstep)
    let offset := y * row_bytes + xstart * psize
    let end_offset := (y + 1) * row_bytes
    let skip := psize * xstep
    (List.range psize).foldlM
      (fun row i => pySetSliceE row i row_len psize (pyGetSliceS pixels (offset + i) end_offset skip))
      (pixels.take row_len)

/-- One Adam7 pass of `Writer.array_scanlines_interlace` (png.py:383-403):
rows `ystart, ystart+ystep, ...`; a pass whose `xstart` falls outside the
image contributes nothing (`continue`). -/
def interlacePass (pixels : List Nat) (psize row_bytes width height : Nat)
    (p : Nat × Nat × Nat × Nat) : Except PyErr (List (List Nat)) :=
  match p with
  | (xstart, ystart, xstep, ystep) =>
    (pyRange ystart height ystep).foldlM
      (fun acc y =>
        if xstart ≥ width then .ok acc
        else do
          let row ← interlaceRow pixels psize row_bytes width xstart xstep y
          .ok (acc ++ [row]))
      []

/-- `Writer.array_scanlines_interlace` (png.py:370-403), with the writer's
`psize`, `width`, `height` made explicit parameters. -/
def array_scanlines_interlace (pixels : List Nat) (psize width height : Nat) :
    Except PyErr (List (List Nat)) :=
  adam7.foldlM (fun acc p => do
    let rows ← interlacePass pixels psize (psize * width) width height p
    .ok (acc ++ rows)) []

/-! ## Reader (png.py:406-549) -/

/-- The loop body count, current/left/above/above-left cursors and the byte
update of `Reader._reconstruct_sub` (png.py:426-435): starts `psize` bytes
into the row, adding the already-reconstructed left neighbour. -/
def reconstructSubGo (px : Array Nat) (offset a_offset : Nat) : Nat → Array Nat
  | 0 => px
  | n + 1 =>
    let x := px.getD offset 0
    let a := px.getD a_offset 0
    reconstructSubGo (px.setD offset ((x + a) % 256)) (offset + 1) (a_offset + 1) n

def _reconstruct_sub (px : Array Nat) (offset row_bytes psize : Nat) : Array Nat :=
  reconstructSubGo px (offset + psize) offset (row_bytes - psize)

/-- `Reader._reconstruct_up` (png.py:437-445): `b_offset = offset - row_bytes`
is used unguarded, so on the first row it is negative and the Python read
`pixels[b_offset]` wraps around to the end of the buffer. -/
def reconstructUpGo (px : Array Nat) (offset : Nat) (b_offset : Int) : Nat → Array Nat
  | 0 => px
  | n + 1 =>
    let x := px.getD offset 0
    let b := pyGetA px b_offset
    reconstructUpGo (px.setD offset ((x + b) % 256)) (offset + 1) (b_offset + 1) n

def _reconstruct_up (px : Array Nat) (offset row_bytes _psize : Nat) : Array Nat :=
  reconstructUpGo px offset ((offset : Int) - row_bytes) row_bytes

/-- `Reader._reconstruct_average` (png.py:447-464): the left neighbour is 0
for the first `psize` bytes and the above neighbour is explicitly guarded to
0 when `b_offset < 0`. -/
def reconstructAvgGo (px : Array Nat) (psize index offset : Nat) (b_offset : Int) :
    Nat → Array Nat
  | 0 => px
  | n + 1 =>
    let x := px.getD offset 0
    let a := if index < psize then 0 else pyGetA px ((offset : Int) - psize)
    let b := if b_offset < 0 then 0 else pyGetA px b_offset
    reconstructAvgGo (px.setD offset ((x + (a + b) / 2) % 256)) psize (index + 1)
      (offset + 1) (b_offset + 1) n

def _reconstruct_average (px : Array Nat) (offset row_bytes psize : Nat) : Array Nat :=
  reconstructAvgGo px psize 0 offset ((offset : Int) - row_bytes) row_bytes

/-- The Paeth predictor selection of png.py:486-495. -/
def paethPredictor (a b c : Nat) : Nat :=
  let p : Int := (a : Int) + b - c
  let pa := (p - a).natAbs
  let pb := (p - b).natAbs
  let pc := (p - c).natAbs
  if pa ≤ pb ∧ pa ≤ pc then a else if pb ≤ pc then b else c

/-- `Reader._reconstruct_paeth` (png.py:466-500): for the first `psize` bytes
`a = c = 0` but `b = pixels[b_offset]` is read unguarded (the `b_offset < 0`
guard is commented out in the source), so on the first row the negative index
wraps around. -/
def reconstructPaethGo (px : Array Nat) (psize index offset : Nat)
    (a_offset b_offset c_offset : Int) : Nat → Array Nat
  | 0 => px
  | n + 1 =>
    let x := px.getD offset 0
    let a := if index < psize then 0 else pyGetA px a_offset
    let b := pyGetA px b_offset
    let c := if index < psize then 0 else pyGetA px c_offset
    let pr := paethPredictor a b c
    reconstructPaethGo (px.setD offset ((x + pr) % 256)) psize (index + 1) (offset + 1)
      (a_offset + 1) (b_offset + 1) (c_offset + 1) n

def _reconstruct_paeth (px : Array Nat) (offset row_bytes psize : Nat) : Array Nat :=
  reconstructPaethGo px psize 0 offset ((offset : Int) - psize)
    ((offset : Int) - row_bytes) ((offset : Int) - row_bytes - psize) row_bytes

/-- The fields `Reader.read` unpacks from the IHDR payload. -/
structure Ihdr where
  width : Nat
  height : Nat
deriving DecidableEq

/-- The IHDR handling of `Reader.read` (png.py:515-523):
`struct.unpack("!2I5B", data)` (requiring exactly 13 bytes) followed by the
`assert`s restricting the reader to non-interlaced 8-bit colour-type-2. -/
def parseIHDR (data : List Nat) : Except PyErr Ihdr :=
  if data.length ≠ 13 then .error .structError
  else
    let bits := data.getD 8 0
    let color_type := data.getD 9 0
    let compression_method := data.getD 10 0
    let filter_method := data.getD 11 0
    let interlaced := data.getD 12 0
    if bits ≠ 8 then .error .assertError
    else if color_type ≠ 2 then .error .assertError
    else if compression_method ≠ 0 then .error .assertError
    else if filter_method ≠ 0 then .error .assertError
    else if interlaced ≠ 0 then .error .assertError
    else .ok ⟨beU32 (data.take 4), beU32 ((data.drop 4).take 4)⟩

/-- The chunk loop of `Reader.read` (png.py:512-528): read chunks, parse
IHDR, collect IDAT payloads, stop at IEND, ignore other tags.  Fuel-driven;
each iteration consumes at least 12 bytes, so fuel equal to the stream length
is never exhausted before `read_chunk` itself fails on a short stream. -/
def readChunksLoop : Nat → List Nat → Option Ihdr → List (List Nat) →
    Except PyErr (Option Ihdr × List (List Nat))
  | 0, _, _, _ => .error .structError
  | fuel + 1, s, ihdr, dats =>
    match read_chunk s with
    | .error e => .error e
    | .ok ((tag, data), rest) =>
      if tag = tagIHDR then
        match parseIHDR data with
        | .error e => .error e
        | .ok ih => readChunksLoop fuel rest (some ih) dats
      else if tag = tagIDAT then readChunksLoop fuel rest ihdr (dats ++ [data])
      else if tag = tagIEND then .ok (ihdr, dats)
      else readChunksLoop fuel rest ihdr dats

/-- The scanline loop of `Reader.read` (png.py:535-548): per row, read the
filter-type byte (`IndexError` past the end), append the stored row bytes,
and dispatch on the filter type.  The reconstruction helpers are invoked as
bare module-level names (`_reconstruct_sub(...)` etc.), which are unbound —
the helpers only exist as class attributes — so filter types 1-4 raise
`NameError`; any other non-zero type matches no branch and the stored row is
kept as-is. -/
def reconstructRows (scanlines : List Nat) (row_bytes : Nat) :
    Nat → Nat → List Nat → Except PyErr (List Nat)
  | 0, _, pixels => .ok pixels
  | y + 1, offset, pixels =>
    if offset < scanlines.length then
      let filter_type := scanlines.getD offset 0
      let row := pyGetSlice2 scanlines (offset + 1) (offset + 1 + row_bytes)
      if filter_type = 1 ∨ filter_type = 2 ∨ filter_type = 3 ∨ filter_type = 4 then
        .error .nameError
      else reconstructRows scanlines row_bytes y (offset + 1 + row_bytes) (pixels ++ row)
    else .error .indexError

/-- `Reader.read` (png.py:502-549): signature check (`assert`), chunk loop,
single-shot decompression of the concatenated IDAT payloads, scanline loop.
If no IHDR chunk was seen, the local `width`/`height` are unbound
(`NameError`). -/
def reader_read (s : List Nat) : Except PyErr (Nat × Nat × List Nat) :=
  if s.take 8 ≠ pngSignature then .error .assertError
  else
    match readChunksLoop s.length (s.drop 8) none [] with
    | .error e => .error e
    | .ok (none, _) => .error .nameError
    | .ok (some ih, dats) =>
      let scanlines := zlibDecompress dats.flatten
      let row_bytes := 3 * ih.width
      match reconstructRows scanlines row_bytes ih.height 0 [] with
      | .error e => .error e
      | .ok pixels => .ok (ih.width, ih.height, pixels)

/-! ## Spec-side definitions (forward filters, Adam7 coverage) -/

/-- Modelled from the spec (§4.5): the forward Up filter,
`filtered[i] = (true[i] - above[i]) mod 256`; inverting it is what the claim
asks `_reconstruct_up` to do. -/
def filterUp (prev cur : List Nat) : List Nat :=
  List.zipWith (fun c p => (c + 256 - p % 256) % 256) cur prev

/-- Modelled from the spec (§4.5): the forward Paeth filter,
`filtered[i] = (true[i] - paeth(left, above, above-left)) mod 256` with zero
neighbours outside the row/image. -/
def filterPaeth (prev cur : List Nat) (psize : Nat) : List Nat :=
  (List.range cur.length).map (fun i =>
    let a := if i < psize then 0 else cur.getD (i - psize) 0
    let b := prev.getD i 0
    let c := if i < psize then 0 else prev.getD (i - psize) 0
    (cur.getD i 0 + 256 - paethPredictor a b c % 256) % 256)

/-- The pixel coordinates selected by the seven Adam7 passes, in emission
order (pass by pass, each pass in raster order). -/
def adam7Coords (w h : Nat) : List (Nat × Nat) :=
  adam7.flatMap (fun p => match p with
    | (xstart, ystart, xstep, ystep) =>
      (pyRange ystart h ystep).flatMap
        (fun y => (pyRange xstart w xstep).map (fun x => (x, y))))

/-- The `psize` bytes of pixel `(x, y)` in a raster-order buffer. -/
def sampleAt (pixels : List Nat) (psize w x y : Nat) : List Nat :=
  pyGetSlice2 pixels (y * (psize * w) + x * psize) (y * (psize * w) + x * psize + psize)

/-- The interlaced scanlines as the spec describes them: for each pass, for
each selected row, the `psize`-byte samples of the selected pixels packed
contiguously. -/
def adam7Rows (pixels : List Nat) (psize w h : Nat) : List (List Nat) :=
  adam7.flatMap (fun p => match p with
    | (xstart, ystart, xstep, ystep) =>
      if xstart ≥ w then []
      else (pyRange ystart h ystep).map
        (fun y => ((pyRange xstart w xstep).map
          (fun x => sampleAt pixels psize w x y)).flatten))

/-- A minimal colour-type-2 test stream: signature, IHDR (w, h, 8 bits,
colour type 2, no interlace), one IDAT chunk carrying the given
filter-tagged rows (filter byte, then the stored row), and IEND — the stream
shape `Reader.read` accepts. -/
def rgb8Stream (w h : Nat) (frows : List (Nat × List Nat)) : List Nat :=
  pngSignature ++ write_chunk tagIHDR (packU32 w ++ packU32 h ++ [8, 2, 0, 0, 0]) ++
  write_chunk tagIDAT ((frows.map (fun p => p.1 :: p.2)).flatten) ++
  write_chunk tagIEND []

/-- The optional tRNS/bKGD/gAMA chunks of a colour-mode writer as
(tag, payload) pairs — bookkeeping for the round-trip proof, mirroring
png.py:223-244. -/
def optChunks (transparent background : Option PyColor) (gamma : Option ℚ) :
    List (List Nat × List Nat) :=
  (match transparent with | none => [] | some c => [(tagTRNS, packColor16 false c)]) ++
  (match background with | none => [] | some c => [(tagBKGD, packColor16 false c)]) ++
  (match gamma with | none => [] | some g => [(tagGAMA, gammaChunkPayload g)])

/-! # Theorems

Everything below is proof: helper lemmas first, then one theorem per claim
(with witnesses and counterexamples as required). -/

/-! ## Packing primitives -/

theorem packU32_length (n : Nat) : (packU32 n).length = 4 := rfl

theorem packU16_length (n : Nat) : (packU16 n).length = 2 := rfl

theorem packU32_bytes_lt (n : Nat) : ∀ b ∈ packU32 n, b < 256 := by
  intro b hb
  simp [packU32] at hb
  rcases hb with h | h | h | h <;> omega

theorem packU16_bytes_lt (n : Nat) : ∀ b ∈ packU16 n, b < 256 := by
  intro b hb
  simp [packU16] at hb
  rcases hb with h | h <;> omega

theorem beU32_packU32 (n : Nat) (h : n < 2 ^ 32) : beU32 (packU32 n) = n := by
  simp only [packU32, beU32, List.foldl]
  omega

/-! ## CRC-32 algebra: GF(2)-linearity and error detection -/

theorem xor_mod_two (a b : Nat) : (a ^^^ b) % 2 = a % 2 ^^^ b % 2 := by
  have h := Nat.testBit_xor a b 0
  simp only [Nat.testBit_zero] at h
  rcases Nat.mod_two_eq_zero_or_one a with ha | ha <;>
    rcases Nat.mod_two_eq_zero_or_one b with hb | hb <;>
    simp [ha, hb] at h ⊢ <;> omega

theorem xor_xor_cancel (a b c : Nat) : (a ^^^ c) ^^^ (b ^^^ c) = a ^^^ b := by
  apply Nat.eq_of_testBit_eq
  intro i
  simp only [Nat.testBit_xor]
  cases a.testBit i <;> cases b.testBit i <;> cases c.testBit i <;> rfl

theorem xor_xor_cancel_left (a b c : Nat) : (c ^^^ a) ^^^ (c ^^^ b) = a ^^^ b := by
  apply Nat.eq_of_testBit_eq
  intro i
  simp only [Nat.testBit_xor]
  cases a.testBit i <;> cases b.testBit i <;> cases c.testBit i <;> rfl

theorem xor_mix (a b c d : Nat) : (a ^^^ b) ^^^ (c ^^^ d) = (a ^^^ c) ^^^ (b ^^^ d) := by
  apply Nat.eq_of_testBit_eq
  intro i
  simp only [Nat.testBit_xor]
  cases a.testBit i <;> cases b.testBit i <;> cases c.testBit i <;> cases d.testBit i <;> rfl

theorem xor_mul_bit (x y p : Nat) (hx : x ≤ 1) (hy : y ≤ 1) :
    (x ^^^ y) * p = x * p ^^^ y * p := by
  interval_cases x <;> interval_cases y <;> simp

theorem crcStep_eq (s : Nat) : crcStep s = (s / 2) ^^^ s % 2 * crcPoly := by
  unfold crcStep
  rcases Nat.mod_two_eq_zero_or_one s with h | h <;> simp [h]

theorem crcStep_linear (u v : Nat) : crcStep (u ^^^ v) = crcStep u ^^^ crcStep v := by
  rw [crcStep_eq, crcStep_eq, crcStep_eq, Nat.xor_div_two, xor_mod_two,
    xor_mul_bit _ _ _ (by omega) (by omega), xor_mix]

theorem crcStepN_succ_outer (n s : Nat) : crcStepN (n + 1) s = crcStep (crcStepN n s) := by
  induction n generalizing s with
  | zero => rfl
  | succ m ih =>
    calc crcStepN (m + 1 + 1) s = crcStepN (m + 1) (crcStep s) := rfl
      _ = crcStep (crcStepN m (crcStep s)) := ih _
      _ = crcStep (crcStepN (m + 1) s) := rfl

theorem crcStepN_add (m n s : Nat) : crcStepN (m + n) s = crcStepN m (crcStepN n s) := by
  induction n generalizing s with
  | zero => rfl
  | succ k ih =>
    calc crcStepN (m + (k + 1)) s = crcStepN (m + k + 1) s := by rw [Nat.add_succ]
      _ = crcStepN (m + k) (crcStep s) := rfl
      _ = crcStepN m (crcStepN k (crcStep s)) := ih _
      _ = crcStepN m (crcStepN (k + 1) s) := rfl

theorem crcStepN_linear (n u v : Nat) :
    crcStepN n (u ^^^ v) = crcStepN n u ^^^ crcStepN n v := by
  induction n generalizing u v with
  | zero => rfl
  | succ m ih =>
    show crcStepN m (crcStep (u ^^^ v)) = _
    rw [crcStep_linear, ih]
    rfl

theorem crcStep_lt (s : Nat) (h : s < 2 ^ 32) : crcStep s < 2 ^ 32 := by
  unfold crcStep
  split
  · exact Nat.xor_lt_two_pow (by omega) (by norm_num [crcPoly])
  · omega

theorem crcStepN_lt (n s : Nat) (h : s < 2 ^ 32) : crcStepN n s < 2 ^ 32 := by
  induction n generalizing s with
  | zero => exact h
  | succ m ih => exact ih _ (crcStep_lt s h)

theorem crcStep_eq_zero (s : Nat) (h : s < 2 ^ 32) (h0 : crcStep s = 0) : s = 0 := by
  unfold crcStep at h0
  split at h0
  · exfalso
    have hP : s / 2 = crcPoly := Nat.xor_eq_zero.mp h0
    have hlt : s / 2 < 2 ^ 31 := by omega
    rw [hP] at hlt
    norm_num [crcPoly] at hlt
  · omega

theorem crcStepN_ne_zero (n s : Nat) (h : s < 2 ^ 32) (h0 : s ≠ 0) :
    crcStepN n s ≠ 0 := by
  induction n generalizing s with
  | zero => exact h0
  | succ m ih =>
    show crcStepN m (crcStep s) ≠ 0
    exact ih (crcStep s) (crcStep_lt s h) (fun hz => h0 (crcStep_eq_zero s h hz))

theorem crcLoop_cons (s b : Nat) (t : List Nat) :
    crcLoop s (b :: t) = crcLoop (crcByte s b) t := rfl

theorem crcLoop_append (s : Nat) (l r : List Nat) :
    crcLoop s (l ++ r) = crcLoop (crcLoop s l) r := by
  simp [crcLoop, List.foldl_append]

theorem crcLoop_xor (l : List Nat) (s1 s2 : Nat) :
    crcLoop s1 l ^^^ crcLoop s2 l = crcStepN (8 * l.length) (s1 ^^^ s2) := by
  induction l generalizing s1 s2 with
  | nil => simp [crcLoop, crcStepN]
  | cons b t ih =>
    rw [crcLoop_cons, crcLoop_cons, ih]
    have hbyte : crcByte s1 b ^^^ crcByte s2 b = crcStepN 8 (s1 ^^^ s2) := by
      unfold crcByte
      rw [← crcStepN_linear, xor_xor_cancel]
    have hlen : 8 * (b :: t).length = 8 * t.length + 8 := by
      simp only [List.length_cons]
      ring
    rw [hbyte, ← crcStepN_add, hlen]

theorem crcByte_lt (s b : Nat) (hs : s < 2 ^ 32) (hb : b < 2 ^ 32) :
    crcByte s b < 2 ^ 32 :=
  crcStepN_lt 8 _ (Nat.xor_lt_two_pow hs hb)

theorem crcLoop_lt (l : List Nat) (s : Nat) (hs : s < 2 ^ 32)
    (hl : ∀ x ∈ l, x < 2 ^ 32) : crcLoop s l < 2 ^ 32 := by
  induction l generalizing s with
  | nil => exact hs
  | cons b t ih =>
    rw [crcLoop_cons]
    exact ih (crcByte s b) (crcByte_lt s b hs (hl b (by simp))) (fun x hx => hl x (by simp [hx]))

theorem crc32_lt (data : List Nat) (seed : Nat) (hs : seed < 2 ^ 32)
    (hd : ∀ x ∈ data, x < 2 ^ 32) : crc32 data seed < 2 ^ 32 := by
  unfold crc32
  exact Nat.xor_lt_two_pow
    (crcLoop_lt data _ (Nat.xor_lt_two_pow hs (by norm_num)) hd) (by norm_num)

/-- A single changed byte always changes the raw CRC register. -/
theorem crcLoop_set_ne (s0 : Nat) (pre suf : List Nat) (b b' : Nat)
    (hb : b < 2 ^ 32) (hb' : b' < 2 ^ 32) (hne : b ≠ b') :
    crcLoop s0 (pre ++ b :: suf) ≠ crcLoop s0 (pre ++ b' :: suf) := by
  intro h
  have hx : crcLoop s0 (pre ++ b :: suf) ^^^ crcLoop s0 (pre ++ b' :: suf) = 0 := by
    rw [h, Nat.xor_self]
  rw [crcLoop_append, crcLoop_append, crcLoop_cons, crcLoop_cons, crcLoop_xor] at hx
  have hbyte : crcByte (crcLoop s0 pre) b ^^^ crcByte (crcLoop s0 pre) b' =
      crcStepN 8 (b ^^^ b') := by
    unfold crcByte
    rw [← crcStepN_linear, xor_xor_cancel_left]
  rw [hbyte, ← crcStepN_add] at hx
  exact crcStepN_ne_zero _ _ (Nat.xor_lt_two_pow hb hb')
    (fun hz => hne (Nat.xor_eq_zero.mp hz)) hx

/-- A single changed byte always changes `zlib.crc32` (any seed). -/
theorem crc32_set_ne (data : List Nat) (seed k b' : Nat) (hk : k < data.length)
    (hb' : b' < 2 ^ 32) (hdb : ∀ x ∈ data, x < 2 ^ 32) (hne : b' ≠ data.getD k 0) :
    crc32 (data.set k b') seed ≠ crc32 data seed := by
  have hset : data.set k b' = data.take k ++ b' :: data.drop (k + 1) := by
    rw [List.set_eq_take_append_cons_drop]
    simp [hk]
  have hdata : data = data.take k ++ data.getD k 0 :: data.drop (k + 1) := by
    conv_lhs => rw [← List.take_append_drop k data]
    rw [List.drop_eq_getElem_cons hk, List.getD_eq_getElem data 0 hk]
  intro h
  unfold crc32 at h
  have hloop : crcLoop (seed ^^^ 0xFFFFFFFF) (data.set k b') =
      crcLoop (seed ^^^ 0xFFFFFFFF) data := by
    have h2 := congrArg (fun x => x ^^^ 0xFFFFFFFF) h
    simpa [Nat.xor_cancel_right] using h2
  rw [hset] at hloop
  conv_rhs at hloop => rw [hdata]
  exact crcLoop_set_ne _ _ _ _ _ hb'
    (hdb _ (by rw [List.getD_eq_getElem data 0 hk]; exact List.getElem_mem hk)) hne hloop

/-! ## Chunk framer: parsing back what `write_chunk` emits -/

theorem take_append_of_length (l r : List Nat) (n : Nat) (h : l.length = n) :
    (l ++ r).take n = l := by
  subst h
  exact List.take_left l r

theorem drop_append_of_length (l r : List Nat) (n : Nat) (h : l.length = n) :
    (l ++ r).drop n = r := by
  subst h
  exact List.drop_left l r

theorem bytes_lt_trans (l : List Nat) (h : ∀ x ∈ l, x < 256) : ∀ x ∈ l, x < 2 ^ 32 :=
  fun x hx => lt_trans (h x hx) (by norm_num)

/-- The tag‖payload CRC stored by `write_chunk` is a 32-bit value. -/
theorem chunk_crc_lt (tag data : List Nat) (htb : ∀ x ∈ tag, x < 256)
    (hdb : ∀ x ∈ data, x < 256) : crc32 data (crc32 tag 0) < 2 ^ 32 :=
  crc32_lt _ _ (crc32_lt _ _ (by norm_num) (bytes_lt_trans _ htb)) (bytes_lt_trans _ hdb)

/-- `read_chunk` inverts `write_chunk` on a well-formed chunk, leaving the
rest of the stream untouched. -/
theorem read_chunk_write_chunk (tag data rest : List Nat) (htag : tag.length = 4)
    (hdlen : data.length < 2 ^ 32) (htb : ∀ x ∈ tag, x < 256)
    (hdb : ∀ x ∈ data, x < 256) :
    read_chunk (write_chunk tag data ++ rest) = .ok ((tag, data), rest) := by
  have hcrc : crc32 data (crc32 tag 0) < 2 ^ 32 := chunk_crc_lt tag data htb hdb
  have hs : write_chunk tag data ++ rest =
      packU32 data.length ++ (tag ++ (data ++ (packU32 (crc32 data (crc32 tag 0)) ++ rest))) := by
    simp [write_chunk, List.append_assoc]
  rw [hs]
  have hlen : (packU32 data.length ++ (tag ++ (data ++
      (packU32 (crc32 data (crc32 tag 0)) ++ rest)))).length =
      12 + data.length + rest.length := by
    simp [htag, packU32]
    ring
  have hbody : (packU32 data.length ++ (tag ++ (data ++
      (packU32 (crc32 data (crc32 tag 0)) ++ rest)))).drop 8 =
      data ++ (packU32 (crc32 data (crc32 tag 0)) ++ rest) := by
    have h8 : (8 : Nat) = (packU32 data.length).length + 4 := by rw [packU32_length]
    rw [h8, List.drop_append, drop_append_of_length _ _ 4 htag]
  unfold read_chunk
  rw [if_neg (by omega)]
  simp only [take_append_of_length _ _ 4 (packU32_length _),
    drop_append_of_length _ _ 4 (packU32_length _), beU32_packU32 _ hdlen,
    take_append_of_length _ _ 4 htag, hbody,
    take_append_of_length data _ data.length rfl,
    drop_append_of_length data _ data.length rfl, beU32_packU32 _ hcrc]
  rw [if_neg (by simp [packU32])]
  rw [if_neg (by simp)]

/-- C4: corrupting one payload byte of an encoded chunk makes `read_chunk`
fail with the checksum error: flipping byte `k` of the payload (stream
position `8 + k`) to a different value `b'` always changes the recomputed
CRC, which then disagrees with the stored one. -/
theorem C4_chunk_payload_flip_checksum (tag data : List Nat) (k b' : Nat)
    (htag : tag.length = 4) (hdlen : data.length < 2 ^ 32)
    (htb : ∀ x ∈ tag, x < 256) (hdb : ∀ x ∈ data, x < 256)
    (hk : k < data.length) (hb' : b' < 256) (hne : b' ≠ data.getD k 0) :
    read_chunk ((write_chunk tag data).set (8 + k) b') = .error .checksumError := by
  have hcrc : crc32 data (crc32 tag 0) < 2 ^ 32 := chunk_crc_lt tag data htb hdb
  have hlenset : (data.set k b').length = data.length := by simp
  have hset : (write_chunk tag data).set (8 + k) b' =
      packU32 data.length ++ (tag ++ (data.set k b' ++
        packU32 (crc32 data (crc32 tag 0)))) := by
    have h1 : write_chunk tag data =
        packU32 data.length ++ (tag ++ (data ++ packU32 (crc32 data (crc32 tag 0)))) := by
      simp [write_chunk, List.append_assoc]
    rw [h1, List.set_append, if_neg (by rw [packU32_length]; omega)]
    have h2 : 8 + k - (packU32 data.length).length = 4 + k := by
      rw [packU32_length]
      omega
    rw [h2, List.set_append, if_neg (by omega)]
    have h3 : 4 + k - tag.length = k := by omega
    rw [h3, List.set_append, if_pos hk]
  have hverne : crc32 data (crc32 tag 0) ≠ crc32 (data.set k b') (crc32 tag 0) :=
    (crc32_set_ne data _ k b' hk (by omega) (bytes_lt_trans _ hdb) hne).symm
  rw [hset]
  unfold read_chunk
  rw [if_neg (show ¬ (packU32 data.length ++ (tag ++ (data.set k b' ++
      packU32 (crc32 data (crc32 tag 0))))).length < 8 by
    simp only [List.length_append, packU32_length, htag]
    omega)]
  have hbody : (packU32 data.length ++ (tag ++ (data.set k b' ++
      packU32 (crc32 data (crc32 tag 0))))).drop 8 =
      data.set k b' ++ packU32 (crc32 data (crc32 tag 0)) := by
    have h8 : (8 : Nat) = (packU32 data.length).length + 4 := by rw [packU32_length]
    rw [h8, List.drop_append, drop_append_of_length _ _ 4 htag]
  have htake4 : ∀ n : Nat, (packU32 n).take 4 = packU32 n := fun n => rfl
  simp only [take_append_of_length _ _ 4 (packU32_length _),
    drop_append_of_length _ _ 4 (packU32_length _), beU32_packU32 _ hdlen,
    take_append_of_length _ _ 4 htag, hbody,
    take_append_of_length _ _ data.length hlenset,
    drop_append_of_length _ _ data.length hlenset, htake4, beU32_packU32 _ hcrc]
  rw [if_neg (show ¬ (packU32 (crc32 data (crc32 tag 0))).length < 4 by
    rw [packU32_length]
    omega)]
  rw [if_pos hverne]

theorem C4_chunk_payload_flip_checksum_witness :
    (([73, 68, 65, 84] : List Nat).length = 4 ∧
      ([1, 2, 3] : List Nat).length < 2 ^ 32 ∧
      (∀ x ∈ ([73, 68, 65, 84] : List Nat), x < 256) ∧
      (∀ x ∈ ([1, 2, 3] : List Nat), x < 256) ∧
      1 < ([1, 2, 3] : List Nat).length ∧ (7 : Nat) < 256 ∧
      (7 : Nat) ≠ ([1, 2, 3] : List Nat).getD 1 0) ∧
    read_chunk ((write_chunk [73, 68, 65, 84] [1, 2, 3]).set (8 + 1) 7) =
      .error .checksumError :=
  ⟨by decide,
   C4_chunk_payload_flip_checksum [73, 68, 65, 84] [1, 2, 3] 1 7 (by decide) (by decide)
     (by decide) (by decide) (by decide) (by decide) (by decide)⟩

/-- C5: a declared payload length larger than the bytes available after the
tag exhausts the stream, so the 4-byte CRC read comes up short and
`struct.unpack` fails (`struct.error`, the spec's `TruncatedStreamError`) —
before any checksum comparison and instead of returning a chunk. -/
theorem C5_truncated_stream (s : List Nat) (h8 : 8 ≤ s.length)
    (hlen : s.length - 8 < beU32 (s.take 4)) :
    read_chunk s = .error .structError := by
  simp only [read_chunk, if_neg (by omega : ¬ s.length < 8)]
  rw [if_pos (show ((s.drop 8).drop (beU32 (s.take 4))).length < 4 by
    simp only [List.length_drop]
    omega)]

theorem C5_truncated_stream_witness :
    (8 ≤ ([0, 0, 0, 5, 65, 66, 67, 68, 1, 2] : List Nat).length ∧
      ([0, 0, 0, 5, 65, 66, 67, 68, 1, 2] : List Nat).length - 8 <
        beU32 (([0, 0, 0, 5, 65, 66, 67, 68, 1, 2] : List Nat).take 4)) ∧
    read_chunk [0, 0, 0, 5, 65, 66, 67, 68, 1, 2] = .error .structError :=
  ⟨by decide, C5_truncated_stream _ (by decide) (by decide)⟩

/-! ## C6: colour model resolver -/

/-- C6 counterexample: the claim says construction fails exactly when
`bytes_per_sample ∉ {1,2}` or alpha is combined with a transparent colour.
But with `width = 0` — and `bytes_per_sample = 1`, no alpha, no transparent
colour, so the claim's failure condition is false — construction still fails
(`ValueError: Width and height must be greater than zero`). -/
theorem C6_counterexample :
    PngWriter.init 0 1 none none none false false 1 none (2 ^ 20) = .error .valueError ∧
    ¬(((1 : Int) < 1 ∨ 2 < (1 : Int)) ∨ (false = true ∧ (none : Option PyColor).isSome)) := by
  constructor
  · rfl
  · decide

/-- `PngWriter.init` succeeds exactly when every validation check passes
(conditions verbatim as the source tests them). -/
theorem init_ok_iff (width height : Int) (transparent background : Option PyColor)
    (gamma : Option ℚ) (greyscale has_alpha : Bool) (bps : Int)
    (compression : Option Int) (chunk_limit : Nat) :
    (∃ w, PngWriter.init width height transparent background gamma greyscale has_alpha
        bps compression chunk_limit = .ok w) ↔
      (¬(width ≤ 0 ∨ height ≤ 0) ∧ ¬(has_alpha = true ∧ transparent.isSome) ∧
        ¬(bps < 1 ∨ 2 < bps) ∧ colorShapeErr greyscale transparent = none ∧
        colorShapeErr greyscale background = none) := by
  unfold PngWriter.init
  by_cases h1 : width ≤ 0 ∨ height ≤ 0
  · rw [if_pos h1]
    simp [h1]
  rw [if_neg h1]
  by_cases h2 : has_alpha = true ∧ transparent.isSome
  · rw [if_pos h2]
    simp [h1, h2]
  rw [if_neg h2]
  by_cases h3 : bps < 1 ∨ 2 < bps
  · rw [if_pos h3]
    simp [h1, h2, h3]
  rw [if_neg h3]
  rcases hct : colorShapeErr greyscale transparent with _ | e1
  · rcases hcb : colorShapeErr greyscale background with _ | e2
    · simp [h1, h2, h3, hct, hcb]
    · simp [h1, h2, h3, hct, hcb]
  · simp [h1, h2, h3, hct]

/-- C6 (amended): the colour-type/psize table is a pure function of
(greyscale, has_alpha, bytes_per_sample) exactly as claimed, but construction
fails exactly when width ≤ 0 or height ≤ 0, or bytes_per_sample ∉ {1, 2}, or
has_alpha is combined with a transparent colour, or a transparent/background
value has the wrong shape for the mode — not only in the two cases the claim
lists. -/
theorem C6_color_model (width height : Int) (transparent background : Option PyColor)
    (gamma : Option ℚ) (greyscale has_alpha : Bool) (bps : Int)
    (compression : Option Int) (chunk_limit : Nat) :
    ((∃ w, PngWriter.init width height transparent background gamma greyscale has_alpha
        bps compression chunk_limit = .ok w) ↔
      (0 < width ∧ 0 < height ∧ ¬(has_alpha = true ∧ transparent.isSome) ∧
        1 ≤ bps ∧ bps ≤ 2 ∧ colorShapeErr greyscale transparent = none ∧
        colorShapeErr greyscale background = none)) ∧
    (∀ w, PngWriter.init width height transparent background gamma greyscale has_alpha
        bps compression chunk_limit = .ok w →
      (w.color_type, w.psize) =
        if greyscale then
          (if has_alpha then (4, bps.toNat * 2) else (0, bps.toNat))
        else
          (if has_alpha then (6, bps.toNat * 4) else (2, bps.toNat * 3))) := by
  constructor
  · rw [init_ok_iff]
    constructor
    · rintro ⟨a, b, c, d, e⟩
      exact ⟨by omega, by omega, b, by omega, by omega, d, e⟩
    · rintro ⟨a, b, c, d, e, f, g⟩
      exact ⟨by omega, c, by omega, f, g⟩
  · intro w hw
    unfold PngWriter.init at hw
    by_cases h1 : width ≤ 0 ∨ height ≤ 0
    · rw [if_pos h1] at hw
      exact absurd hw (by simp)
    rw [if_neg h1] at hw
    by_cases h2 : has_alpha = true ∧ transparent.isSome
    · rw [if_pos h2] at hw
      exact absurd hw (by simp)
    rw [if_neg h2] at hw
    by_cases h3 : bps < 1 ∨ 2 < bps
    · rw [if_pos h3] at hw
      exact absurd hw (by simp)
    rw [if_neg h3] at hw
    rcases hct : colorShapeErr greyscale transparent with _ | e1 <;> rw [hct] at hw
    · rcases hcb : colorShapeErr greyscale background with _ | e2 <;> rw [hcb] at hw
      · simp only [Except.ok.injEq] at hw
        subst hw
        cases greyscale <;> cases has_alpha <;> simp
      · exact absurd hw (by simp)
    · exact absurd hw (by simp)

theorem C6_color_model_witness :
    (∃ w, PngWriter.init 2 3 none none none false true 1 none (2 ^ 20) = .ok w) ∧
    (∀ w, PngWriter.init 2 3 none none none false true 1 none (2 ^ 20) = .ok w →
      (w.color_type, w.psize) = (6, 4)) := by
  have h := C6_color_model 2 3 none none none false true 1 none (2 ^ 20)
  refine ⟨h.1.mpr (by decide), fun w hw => ?_⟩
  have ht := h.2 w hw
  simpa using ht

/-! ## C8: the gAMA chunk payload -/

theorem tdiv_nonneg_eq_ediv (a b : Int) (ha : 0 ≤ a) (hb : 0 ≤ b) :
    a.tdiv b = a / b := by
  lift a to ℕ using ha
  lift b to ℕ using hb
  rfl

/-- Python `int()` on a non-negative rational is the floor. -/
theorem pyInt_eq_floor (q : ℚ) (hq : 0 ≤ q) : pyInt q = ⌊q⌋ := by
  unfold pyInt
  rw [Rat.floor_def]
  exact tdiv_nonneg_eq_ediv _ _ (Rat.num_nonneg.mpr hq) (by positivity)

/-- C8 counterexample: for gamma = 0.9999951 the true product is 99999.51;
the code's `int()` truncation stores 99999 while the claimed round-to-nearest
value is 100000, so the emitted payload differs from the claimed one.
(Python's binary float for 0.9999951 also yields a product with fractional
part far above one half, so the divergence is not a rounding artefact of the
exact-rational modelling of the float.) -/
theorem C8_counterexample :
    gammaChunkPayload (9999951 / 10000000 : ℚ) ≠
      packU32 (round ((9999951 / 10000000 : ℚ) * 100000)).toNat := by
  have h1 : (9999951 / 10000000 : ℚ) * 100000 = 9999951 / 100 := by norm_num
  have hround : round ((9999951 / 10000000 : ℚ) * 100000) = 100000 := by
    rw [round_eq, h1, Int.floor_eq_iff]
    norm_num
  have hfloor : ⌊(9999951 / 10000000 : ℚ) * 100000⌋ = 99999 := by
    rw [h1, Int.floor_eq_iff]
    norm_num
  unfold gammaChunkPayload
  rw [pyInt_eq_floor _ (by norm_num), hfloor, hround]
  decide

/-- C8 (amended): for every positive gamma the payload is the big-endian u32
of gamma × 100000 truncated toward zero (`int()`; the floor, for positive
values) — not rounded to nearest. -/
theorem C8_gamma_payload_truncates (g : ℚ) (hg : 0 < g) :
    gammaChunkPayload g = packU32 (⌊g * 100000⌋).toNat := by
  unfold gammaChunkPayload
  rw [pyInt_eq_floor _ (by positivity)]

theorem C8_gamma_payload_truncates_witness :
    (0 < (1 : ℚ)) ∧ gammaChunkPayload 1 = packU32 (⌊(1 : ℚ) * 100000⌋).toNat :=
  ⟨one_pos, C8_gamma_payload_truncates 1 one_pos⟩

/-! ## C9: interleave_planes -/

theorem pyGetSliceS_length (l : List Nat) (start stop step : Nat) :
    (pyGetSliceS l start stop step).length = pySliceCount start stop step l.length := by
  simp [pyGetSliceS]

/-- The ceiling count `(k*m - i + m - 1) / m` of a stepped slice over a
`k*m`-byte buffer starting at `i < m`. -/
theorem ceil_count_eq (k m i : Nat) (him : i < m) : (k * m - i + m - 1) / m = k := by
  rcases Nat.eq_zero_or_pos k with hk | hk
  · subst hk
    simp only [Nat.zero_mul, Nat.zero_sub]
    exact Nat.div_eq_of_lt (by omega)
  · have hKm : m ≤ k * m := Nat.le_mul_of_pos_left m hk
    have hsucc : (k + 1) * m = k * m + m := by ring
    exact Nat.div_eq_of_lt_le (by omega) (by omega)

theorem pySetSliceE_ok_length (a : List Nat) (start stop step : Nat) (src out : List Nat)
    (h : pySetSliceE a start stop step src = .ok out) : out.length = a.length := by
  unfold pySetSliceE at h
  split at h
  · simp only [Except.ok.injEq] at h
    subst h
    simp
  · exact absurd h (by simp)

/-- A run of strict slice-assignments all of whose counts match succeeds and
preserves the buffer length. -/
theorem foldlM_setSlice_length (stop step : Nat) (startf : Nat → Nat)
    (srcf : Nat → List Nat) (L : Nat) (is : List Nat) :
    ∀ a : List Nat, a.length = L →
      (∀ i ∈ is, pySliceCount (startf i) stop step L = (srcf i).length) →
      ∃ out, is.foldlM (fun o i => pySetSliceE o (startf i) stop step (srcf i)) a = .ok out ∧
        out.length = L := by
  induction is with
  | nil => exact fun a ha _ => ⟨a, rfl, ha⟩
  | cons i t ih =>
    intro a ha hc
    have hcount : pySliceCount (startf i) stop step a.length = (srcf i).length := by
      rw [ha]
      exact hc i (by simp)
    have hstep : pySetSliceE a (startf i) stop step (srcf i) =
        .ok ((List.range a.length).map (fun j =>
          if startf i ≤ j ∧ j < min stop a.length ∧ (j - startf i) % step = 0 then
            (srcf i).getD ((j - startf i) / step) 0
          else a.getD j 0)) := by
      unfold pySetSliceE
      rw [if_pos hcount]
    obtain ⟨out, hout, hlen⟩ := ih ((List.range a.length).map (fun j =>
        if startf i ≤ j ∧ j < min stop a.length ∧ (j - startf i) % step = 0 then
          (srcf i).getD ((j - startf i) / step) 0
        else a.getD j 0)) (by simp [ha]) (fun i2 hi2 => hc i2 (by simp [hi2]))
    refine ⟨out, ?_, hlen⟩
    rw [List.foldlM_cons, hstep]
    simpa using hout

/-- C9 counterexample: with a 1×1 image and strides 1/1, the second plane has
2 bytes instead of the required 1, yet `interleave_planes` performs no size
validation: it returns a 3-byte buffer instead of failing with a
size-mismatch error (and the result is longer than `w*h*(sA+sB) = 2`). -/
theorem C9_counterexample :
    interleave_planes [5] [6, 7] 1 1 1 1 = .ok [5, 6, 7] ∧
    ([5, 6, 7] : List Nat).length ≠ 1 * 1 * (1 + 1) := by
  constructor
  · rfl
  · decide

/-- C9 (amended): `interleave_planes` performs no size validation, so the
claimed `SizeMismatchError` behaviour does not exist; the positive half of
the claim holds: when both planes contain exactly `width*height*stride`
bytes, it returns a buffer of length `width*height*(ipsize+apsize)`. -/
theorem C9_interleave_exact_sizes (ipixels apixels : List Nat)
    (width height ipsize apsize : Nat)
    (hi : ipixels.length = width * height * ipsize)
    (ha : apixels.length = width * height * apsize) :
    ∃ out, interleave_planes ipixels apixels width height ipsize apsize = .ok out ∧
      out.length = width * height * (ipsize + apsize) := by
  have hcat : (ipixels ++ apixels).length = width * height * (ipsize + apsize) := by
    simp [hi, ha]
    ring
  have hcount1 : ∀ i ∈ List.range ipsize,
      pySliceCount i (width * height * (ipsize + apsize)) (ipsize + apsize)
        (width * height * (ipsize + apsize)) =
      (pyGetSliceS ipixels i (width * height * ipsize) ipsize).length := by
    intro i hmem
    have him : i < ipsize := List.mem_range.mp hmem
    rw [pyGetSliceS_length, hi]
    unfold pySliceCount
    rw [min_self, min_self, ceil_count_eq _ _ _ (by omega), ceil_count_eq _ _ _ him]
  have hcount2 : ∀ i ∈ List.range apsize,
      pySliceCount (i + ipsize) (width * height * (ipsize + apsize)) (ipsize + apsize)
        (width * height * (ipsize + apsize)) =
      (pyGetSliceS apixels i (width * height * apsize) apsize).length := by
    intro i hmem
    have him : i < apsize := List.mem_range.mp hmem
    rw [pyGetSliceS_length, ha]
    unfold pySliceCount
    rw [min_self, min_self, ceil_count_eq _ _ _ (by omega), ceil_count_eq _ _ _ him]
  obtain ⟨out1, hout1, hlen1⟩ := foldlM_setSlice_length
    (width * height * (ipsize + apsize)) (ipsize + apsize) (fun i => i)
    (fun i => pyGetSliceS ipixels i (width * height * ipsize) ipsize)
    (width * height * (ipsize + apsize)) (List.range ipsize)
    (ipixels ++ apixels) hcat hcount1
  obtain ⟨out2, hout2, hlen2⟩ := foldlM_setSlice_length
    (width * height * (ipsize + apsize)) (ipsize + apsize) (fun i => i + ipsize)
    (fun i => pyGetSliceS apixels i (width * height * apsize) apsize)
    (width * height * (ipsize + apsize)) (List.range apsize)
    out1 hlen1 hcount2
  refine ⟨out2, ?_, hlen2⟩
  unfold interleave_planes
  simp only [bind, Except.bind]
  rw [hout1]
  exact hout2

theorem C9_interleave_exact_sizes_witness :
    (([1, 2, 3, 4, 5, 6] : List Nat).length = 2 * 1 * 3 ∧
      ([9, 10] : List Nat).length = 2 * 1 * 1) ∧
    ∃ out, interleave_planes [1, 2, 3, 4, 5, 6] [9, 10] 2 1 3 1 = .ok out ∧
      out.length = 2 * 1 * (3 + 1) :=
  ⟨by decide, C9_interleave_exact_sizes [1, 2, 3, 4, 5, 6] [9, 10] 2 1 3 1 rfl rfl⟩

/-! ## C2: filter reconstruction at the first row -/

/-- C2 (code-bug evidence): take the one-byte true row `[1]` as the first row
of an image (`row_bytes = psize = 1`, no row above).  The forward Up and
Paeth filters with a zero above-neighbour both store `[1]`.  Reconstructing
per the claim should return `[1]`; but `_reconstruct_up` reads
`pixels[offset - row_bytes] = pixels[-1]`, which in Python wraps around to
the row's own byte instead of 0 (and `_reconstruct_paeth` reads `b` through
the same unguarded negative offset — its guard is commented out in the
source), so both return `[2]`.  `_reconstruct_average`, whose `b_offset < 0`
guard is present, is correct here. -/
theorem C2_up_paeth_first_row_bug :
    filterUp [0] [1] = [1] ∧
    filterPaeth [0] [1] 1 = [1] ∧
    _reconstruct_up (Array.mk [1]) 0 1 1 = Array.mk [2] ∧
    _reconstruct_paeth (Array.mk [1]) 0 1 1 = Array.mk [2] ∧
    Array.mk [2] ≠ Array.mk ([1] : List Nat) ∧
    _reconstruct_average (Array.mk [1]) 0 1 1 = Array.mk [1] := by
  refine ⟨rfl, rfl, rfl, rfl, ?_, rfl⟩
  decide

/-! ## C7: IDAT chunking transparency -/

/-- With the (spec-modelled) streaming compressor, the concatenation of the
IDAT payloads emitted by the accumulation loop is the pending buffer followed
by all remaining filter-tagged scanlines, independent of `chunk_limit`. -/
theorem idatLoop_flatten (chunk_limit : Nat) (scanlines : List (List Nat)) :
    ∀ data : List Nat, (idatLoop chunk_limit scanlines data).flatten =
      data ++ (scanlines.map (fun sl => 0 :: sl)).flatten := by
  induction scanlines with
  | nil =>
    intro data
    by_cases hd : data = []
    · subst hd
      simp [idatLoop, zlibCompressPiece, zlibFlush]
    · simp only [idatLoop, zlibCompressPiece, zlibFlush]
      rw [if_pos (by simpa using hd)]
      rw [if_pos (by simp [by simpa using hd])]
      simp
  | cons sl rest ih =>
    intro data
    simp only [idatLoop, zlibCompressPiece, zlibFlush]
    by_cases hcl : (data ++ 0 :: sl).length > chunk_limit
    · rw [if_pos hcl, if_pos (by simp)]
      simp only [List.flatten_cons, List.singleton_append, ih, List.map_cons]
      simp
    · rw [if_neg hcl, ih]
      simp

/-- C7: for a fixed scanline sequence the concatenation of the IDAT chunk
payloads `Writer.write` emits is independent of `chunk_limit` — the chunking
threshold never alters the logical compressed stream's bytes. -/
theorem C7_chunk_limit_transparent (cl1 cl2 : Nat) (scanlines : List (List Nat)) :
    (idatPayloads cl1 scanlines).flatten = (idatPayloads cl2 scanlines).flatten := by
  unfold idatPayloads
  rw [idatLoop_flatten, idatLoop_flatten]

/-! ## Reader chunk-loop lemmas -/

theorem getD_append_length (l r : List Nat) (d : Nat) :
    (l ++ r).getD l.length d = r.getD 0 d := by
  rcases r with _ | ⟨x, t⟩
  · simp
  · rw [List.getD_eq_getElem _ _ (by simp : l.length < (l ++ x :: t).length)]
    rw [List.getElem_append_right (by omega)]
    simp

/-- One iteration of the chunk loop over a well-formed chunk. -/
theorem readChunksLoop_step (fuel : Nat) (tag data rest : List Nat) (ihdr : Option Ihdr)
    (dats : List (List Nat)) (htag : tag.length = 4) (hdlen : data.length < 2 ^ 32)
    (htb : ∀ x ∈ tag, x < 256) (hdb : ∀ x ∈ data, x < 256) :
    readChunksLoop (fuel + 1) (write_chunk tag data ++ rest) ihdr dats =
      if tag = tagIHDR then
        match parseIHDR data with
        | .error e => .error e
        | .ok ih => readChunksLoop fuel rest (some ih) dats
      else if tag = tagIDAT then readChunksLoop fuel rest ihdr (dats ++ [data])
      else if tag = tagIEND then .ok (ihdr, dats)
      else readChunksLoop fuel rest ihdr dats := by
  rw [readChunksLoop, read_chunk_write_chunk _ _ _ htag hdlen htb hdb]

/-- Chunks whose tags the reader ignores pass through the loop unchanged. -/
theorem readChunksLoop_ignored (cs : List (List Nat × List Nat))
    (hcs : ∀ c ∈ cs, c.1.length = 4 ∧ c.2.length < 2 ^ 32 ∧ (∀ x ∈ c.1, x < 256) ∧
      (∀ x ∈ c.2, x < 256) ∧ c.1 ≠ tagIHDR ∧ c.1 ≠ tagIDAT ∧ c.1 ≠ tagIEND) :
    ∀ fuel rest ihdr dats,
      readChunksLoop (fuel + cs.length)
        ((cs.map (fun c => write_chunk c.1 c.2)).flatten ++ rest) ihdr dats =
        readChunksLoop fuel rest ihdr dats := by
  induction cs with
  | nil => intro fuel rest ihdr dats; simp
  | cons c t ih =>
    intro fuel rest ihdr dats
    obtain ⟨h4, hlt, htb, hdb, hn1, hn2, hn3⟩ := hcs c (by simp)
    have hfs : fuel + (c :: t).length = (fuel + t.length) + 1 := by
      simp [List.length_cons]
      ring
    rw [List.map_cons, List.flatten_cons, List.append_assoc, hfs,
      readChunksLoop_step _ _ _ _ _ _ h4 hlt htb hdb,
      if_neg hn1, if_neg hn2, if_neg hn3]
    exact ih (fun c2 hc2 => hcs c2 (by simp [hc2])) fuel rest ihdr dats

/-- A run of IDAT chunks appends its payloads in order. -/
theorem readChunksLoop_idats (payloads : List (List Nat))
    (hws : ∀ p ∈ payloads, p.length < 2 ^ 32 ∧ ∀ x ∈ p, x < 256) :
    ∀ fuel rest ihdr dats,
      readChunksLoop (fuel + payloads.length)
        ((payloads.map (write_chunk tagIDAT)).flatten ++ rest) ihdr dats =
        readChunksLoop fuel rest ihdr (dats ++ payloads) := by
  induction payloads with
  | nil => intro fuel rest ihdr dats; simp
  | cons p t ih =>
    intro fuel rest ihdr dats
    obtain ⟨hlt, hdb⟩ := hws p (by simp)
    have hfs : fuel + (p :: t).length = (fuel + t.length) + 1 := by
      simp [List.length_cons]
      ring
    rw [List.map_cons, List.flatten_cons, List.append_assoc, hfs,
      readChunksLoop_step _ _ _ _ _ _ (by decide) hlt (by decide) hdb,
      if_neg (by decide), if_pos rfl,
      ih (fun p2 hp2 => hws p2 (by simp [hp2])) fuel rest ihdr (dats ++ [p])]
    simp

/-- The IEND chunk stops the loop. -/
theorem readChunksLoop_iend (fuel : Nat) (junk : List Nat) (ihdr : Option Ihdr)
    (dats : List (List Nat)) :
    readChunksLoop (fuel + 1) (write_chunk tagIEND [] ++ junk) ihdr dats =
      .ok (ihdr, dats) := by
  rw [readChunksLoop_step _ _ _ _ _ _ (by decide) (by decide) (by decide) (by decide),
    if_neg (by decide), if_neg (by decide), if_pos rfl]

/-- A successful chunk-loop run stays successful with more fuel. -/
theorem readChunksLoop_mono (fuel : Nat) :
    ∀ fuel' s ihdr dats r, fuel ≤ fuel' →
      readChunksLoop fuel s ihdr dats = .ok r →
      readChunksLoop fuel' s ihdr dats = .ok r := by
  induction fuel with
  | zero =>
    intro fuel' s ihdr dats r _ hok
    exact absurd hok (by simp [readChunksLoop])
  | succ f ih =>
    intro fuel' s ihdr dats r hle hok
    obtain ⟨f2, rfl⟩ : ∃ f2, fuel' = f2 + 1 := ⟨fuel' - 1, by omega⟩
    rw [readChunksLoop] at hok ⊢
    rcases hrc : read_chunk s with e | ⟨⟨tag, data⟩, rest⟩ <;> simp only [hrc] at hok ⊢
    · exact hok
    · by_cases h1 : tag = tagIHDR
      · rw [if_pos h1] at hok ⊢
        rcases hp : parseIHDR data with e | ihp <;> simp only [hp] at hok ⊢
        · exact hok
        · exact ih f2 rest (some ihp) dats r (by omega) hok
      · rw [if_neg h1] at hok ⊢
        by_cases h2 : tag = tagIDAT
        · rw [if_pos h2] at hok ⊢
          exact ih f2 rest ihdr (dats ++ [data]) r (by omega) hok
        · rw [if_neg h2] at hok ⊢
          by_cases h3 : tag = tagIEND
          · rw [if_pos h3] at hok ⊢
            exact hok
          · rw [if_neg h3] at hok ⊢
            exact ih f2 rest ihdr dats r (by omega) hok

/-! ## Reader scanline-loop lemmas -/

/-- Processing one (filter byte ∉ {1,2,3,4}) row: the stored row is appended
as-is and the cursor advances past the filter byte and the row. -/
theorem reconstructRows_cons (scanlines : List Nat) (row_bytes : Nat)
    (consumed : List Nat) (ft : Nat) (row tail acc : List Nat) (y : Nat)
    (hs : scanlines = consumed ++ (ft :: row) ++ tail)
    (hrow : row.length = row_bytes)
    (hft : ¬(ft = 1 ∨ ft = 2 ∨ ft = 3 ∨ ft = 4)) :
    reconstructRows scanlines row_bytes (y + 1) consumed.length acc =
      reconstructRows scanlines row_bytes y (consumed.length + 1 + row_bytes)
        (acc ++ row) := by
  subst hs
  rw [reconstructRows]
  rw [if_pos (by simp)]
  have hgd : (consumed ++ (ft :: row) ++ tail).getD consumed.length 0 = ft := by
    rw [List.append_assoc, getD_append_length]
    simp
  have hslice : pyGetSlice2 (consumed ++ (ft :: row) ++ tail) (consumed.length + 1)
      (consumed.length + 1 + row_bytes) = row := by
    unfold pyGetSlice2
    have hd : (consumed ++ (ft :: row) ++ tail).drop (consumed.length + 1) = row ++ tail := by
      rw [List.append_assoc, List.drop_append 1]
      simp
    rw [hd]
    have hb : consumed.length + 1 + row_bytes - (consumed.length + 1) = row_bytes := by omega
    rw [hb]
    exact take_append_of_length _ _ _ hrow
  rw [hgd, hslice, if_neg hft]

/-- All filter bytes outside {1,2,3,4}: the loop returns the stored rows. -/
theorem reconstructRows_ok (row_bytes : Nat) (frows : List (Nat × List Nat))
    (hlen : ∀ p ∈ frows, p.2.length = row_bytes)
    (hft : ∀ p ∈ frows, ¬(p.1 = 1 ∨ p.1 = 2 ∨ p.1 = 3 ∨ p.1 = 4)) :
    ∀ consumed acc : List Nat,
      reconstructRows (consumed ++ (frows.map (fun p => p.1 :: p.2)).flatten) row_bytes
        frows.length consumed.length acc = .ok (acc ++ (frows.map (fun p => p.2)).flatten) := by
  induction frows with
  | nil =>
    intro consumed acc
    simp [reconstructRows]
  | cons p t ih =>
    intro consumed acc
    have hp2 : p.2.length = row_bytes := hlen p (by simp)
    rw [List.length_cons, reconstructRows_cons _ _ consumed p.1 p.2
      ((t.map (fun q => q.1 :: q.2)).flatten) acc t.length
      (by simp [List.append_assoc]) hp2 (hft p (by simp))]
    have hoff : consumed.length + 1 + row_bytes = (consumed ++ (p.1 :: p.2)).length := by
      simp
      omega
    have hsc : consumed ++ ((p :: t).map (fun q => q.1 :: q.2)).flatten =
        (consumed ++ (p.1 :: p.2)) ++ (t.map (fun q => q.1 :: q.2)).flatten := by
      simp [List.append_assoc]
    rw [hsc, hoff, ih (fun q hq => hlen q (by simp [hq])) (fun q hq => hft q (by simp [hq]))]
    simp [List.append_assoc]

/-- A filter byte in {1,2,3,4} after well-formed rows: `NameError`. -/
theorem reconstructRows_nameError (row_bytes : Nat) (good : List (Nat × List Nat))
    (bad : Nat × List Nat) (rest : List (Nat × List Nat))
    (hlen : ∀ p ∈ good, p.2.length = row_bytes)
    (hft : ∀ p ∈ good, ¬(p.1 = 1 ∨ p.1 = 2 ∨ p.1 = 3 ∨ p.1 = 4))
    (hbad : bad.1 = 1 ∨ bad.1 = 2 ∨ bad.1 = 3 ∨ bad.1 = 4) :
    ∀ consumed acc : List Nat,
      reconstructRows (consumed ++ ((good ++ bad :: rest).map (fun p => p.1 :: p.2)).flatten)
        row_bytes (good ++ bad :: rest).length consumed.length acc = .error .nameError := by
  induction good with
  | nil =>
    intro consumed acc
    rw [List.nil_append, List.length_cons, reconstructRows]
    rw [if_pos (by simp)]
    have hgd : (consumed ++ ((bad :: rest).map (fun p => p.1 :: p.2)).flatten).getD
        consumed.length 0 = bad.1 := by
      rw [getD_append_length]
      simp
    rw [hgd, if_pos hbad]
  | cons p t ih =>
    intro consumed acc
    have hp2 : p.2.length = row_bytes := hlen p (by simp)
    rw [List.cons_append, List.length_cons, reconstructRows_cons _ _ consumed p.1 p.2
      (((t ++ bad :: rest).map (fun q => q.1 :: q.2)).flatten) acc (t ++ bad :: rest).length
      (by simp [List.append_assoc]) hp2 (hft p (by simp))]
    have hoff : consumed.length + 1 + row_bytes = (consumed ++ (p.1 :: p.2)).length := by
      simp
      omega
    have hsc : consumed ++ ((p :: (t ++ bad :: rest)).map (fun q => q.1 :: q.2)).flatten =
        (consumed ++ (p.1 :: p.2)) ++ ((t ++ bad :: rest).map (fun q => q.1 :: q.2)).flatten := by
      simp [List.append_assoc]
    rw [hsc, hoff,
      ih (fun q hq => hlen q (by simp [hq])) (fun q hq => hft q (by simp [hq]))]

/-! ## C10: filter-type dispatch in Reader.read -/

theorem getD_append_add (l r : List Nat) (k d : Nat) :
    (l ++ r).getD (l.length + k) d = r.getD k d := by
  induction l with
  | nil => simp
  | cons x t ih => simpa [Nat.succ_add] using ih

/-- Parsing the 13-byte IHDR payload of a non-interlaced 8-bit colour-type-2
image. -/
theorem parseIHDR_ok (w h : Nat) (hw : w < 2 ^ 32) (hh : h < 2 ^ 32) :
    parseIHDR (packU32 w ++ (packU32 h ++ [8, 2, 0, 0, 0])) = .ok ⟨w, h⟩ := by
  have hgd : ∀ i : Nat, (packU32 w ++ (packU32 h ++ [8, 2, 0, 0, 0])).getD (8 + i) 0 =
      ([8, 2, 0, 0, 0] : List Nat).getD i 0 := by
    intro i
    rw [show 8 + i = (packU32 w).length + (4 + i) from by rw [packU32_length]; omega,
      getD_append_add,
      show 4 + i = (packU32 h).length + i from by rw [packU32_length],
      getD_append_add]
  unfold parseIHDR
  rw [if_neg (by simp [packU32]),
    show (8 : Nat) = 8 + 0 from rfl, hgd 0,
    show (9 : Nat) = 8 + 1 from rfl, hgd 1,
    show (10 : Nat) = 8 + 2 from rfl, hgd 2,
    show (11 : Nat) = 8 + 3 from rfl, hgd 3,
    show (12 : Nat) = 8 + 4 from rfl, hgd 4]
  norm_num
  simp [take_append_of_length _ _ 4 (packU32_length _),
    drop_append_of_length _ _ 4 (packU32_length _),
    beU32_packU32 _ hw, beU32_packU32 _ hh]

/-- The chunk loop of `Reader.read` on `rgb8Stream`: IHDR parsed, the one
IDAT payload collected, IEND stops. -/
theorem readChunksLoop_rgb8 (w h : Nat) (hw : w < 2 ^ 32) (hh : h < 2 ^ 32)
    (frows : List (Nat × List Nat))
    (hdlen : ((frows.map (fun p => p.1 :: p.2)).flatten).length < 2 ^ 32)
    (hdb : ∀ x ∈ (frows.map (fun p => p.1 :: p.2)).flatten, x < 256) :
    readChunksLoop (rgb8Stream w h frows).length ((rgb8Stream w h frows).drop 8) none [] =
      .ok (some ⟨w, h⟩, [(frows.map (fun p => p.1 :: p.2)).flatten]) := by
  have hdrop : (rgb8Stream w h frows).drop 8 =
      write_chunk tagIHDR (packU32 w ++ (packU32 h ++ [8, 2, 0, 0, 0])) ++
        (write_chunk tagIDAT ((frows.map (fun p => p.1 :: p.2)).flatten) ++
          (write_chunk tagIEND [] ++ [])) := by
    unfold rgb8Stream
    simp only [List.append_assoc]
    rw [drop_append_of_length pngSignature _ 8 rfl]
    simp [List.append_assoc]
  have hihb : ∀ x ∈ packU32 w ++ (packU32 h ++ [8, 2, 0, 0, 0]), x < 256 := by
    intro x hx
    simp only [List.mem_append] at hx
    rcases hx with hx | hx
    · exact packU32_bytes_lt _ _ hx
    rcases hx with hx | hx
    · exact packU32_bytes_lt _ _ hx
    · simp at hx
      omega
  have hchain : readChunksLoop 3 ((rgb8Stream w h frows).drop 8) none [] =
      .ok (some ⟨w, h⟩, [(frows.map (fun p => p.1 :: p.2)).flatten]) := by
    rw [hdrop]
    rw [show (3 : Nat) = 2 + 1 from rfl,
      readChunksLoop_step _ _ _ _ _ _ (by decide) (by norm_num [packU32]) (by decide) hihb,
      if_pos rfl]
    simp only [parseIHDR_ok _ _ hw hh]
    rw [show (2 : Nat) = 1 + 1 from rfl,
      readChunksLoop_step _ _ _ _ _ _ (by decide) hdlen (by decide) hdb,
      if_neg (by decide), if_pos rfl]
    rw [readChunksLoop_iend]
    simp
  refine readChunksLoop_mono 3 _ _ _ _ _ ?_ hchain
  unfold rgb8Stream
  simp [write_chunk, packU32]
  omega

/-- C10: `Reader.read` returns a pixel buffer only when no scanline's filter
byte is in {1, 2, 3, 4}.  A filter byte outside 0..4 is silently treated as
filter None (the stored rows come back verbatim); a filter byte in
{1, 2, 3, 4} (after well-formed rows) aborts the call with `NameError`,
because the dispatch invokes `_reconstruct_sub` etc. as bare module-level
names that are unbound — the helpers exist only as `Reader` class
attributes. -/
theorem C10_filter_dispatch (w h : Nat) (hw : w < 2 ^ 32) (hh : h < 2 ^ 32)
    (frows : List (Nat × List Nat)) (hcount : frows.length = h)
    (hrow : ∀ p ∈ frows, p.2.length = 3 * w ∧ p.1 < 256 ∧ ∀ x ∈ p.2, x < 256)
    (hdlen : ((frows.map (fun p => p.1 :: p.2)).flatten).length < 2 ^ 32) :
    ((∀ p ∈ frows, ¬(p.1 = 1 ∨ p.1 = 2 ∨ p.1 = 3 ∨ p.1 = 4)) →
      reader_read (rgb8Stream w h frows) =
        .ok (w, h, (frows.map (fun p => p.2)).flatten)) ∧
    (∀ good bad rest, frows = good ++ bad :: rest →
      (bad.1 = 1 ∨ bad.1 = 2 ∨ bad.1 = 3 ∨ bad.1 = 4) →
      (∀ p ∈ good, ¬(p.1 = 1 ∨ p.1 = 2 ∨ p.1 = 3 ∨ p.1 = 4)) →
      reader_read (rgb8Stream w h frows) = .error .nameError) := by
  have hdb : ∀ x ∈ (frows.map (fun p => p.1 :: p.2)).flatten, x < 256 := by
    intro x hx
    rw [List.mem_flatten] at hx
    obtain ⟨l, hl, hxl⟩ := hx
    rw [List.mem_map] at hl
    obtain ⟨p, hp, hpl⟩ := hl
    subst hpl
    obtain ⟨_, hp1, hp2⟩ := hrow p hp
    rcases List.mem_cons.mp hxl with hxl | hxl
    · omega
    · exact hp2 x hxl
  have hsig : ¬ (rgb8Stream w h frows).take 8 ≠ pngSignature := by
    unfold rgb8Stream
    simp only [List.append_assoc]
    rw [take_append_of_length pngSignature _ 8 rfl]
    simp
  have hloop := readChunksLoop_rgb8 w h hw hh frows hdlen hdb
  constructor
  · intro hft
    have hrec := reconstructRows_ok (3 * w) frows (fun p hp => (hrow p hp).1) hft [] []
    simp only [List.nil_append, List.length_nil] at hrec
    rw [hcount] at hrec
    unfold reader_read
    rw [if_neg hsig]
    simp only [hloop]
    unfold zlibDecompress
    simp only [List.flatten_cons, List.flatten_nil, List.append_nil]
    simp only [hrec]
  · intro good bad rest hsplit hbad hgood
    have hrec := reconstructRows_nameError (3 * w)
      good bad rest (fun p hp => (hrow p (by rw [hsplit]; simp [hp])).1)
      hgood hbad [] []
    simp only [List.nil_append, List.length_nil] at hrec
    rw [← hsplit] at hrec
    rw [hcount] at hrec
    unfold reader_read
    rw [if_neg hsig]
    simp only [hloop]
    unfold zlibDecompress
    simp only [List.flatten_cons, List.flatten_nil, List.append_nil]
    simp only [hrec]

theorem C10_filter_dispatch_witness :
    reader_read (rgb8Stream 1 2 [(0, [1, 2, 3]), (9, [4, 5, 6])]) =
      .ok (1, 2, [1, 2, 3, 4, 5, 6]) ∧
    reader_read (rgb8Stream 1 2 [(0, [1, 2, 3]), (2, [4, 5, 6])]) = .error .nameError := by
  constructor
  · exact (C10_filter_dispatch 1 2 (by decide) (by decide) [(0, [1, 2, 3]), (9, [4, 5, 6])]
      (by decide) (by decide) (by decide)).1 (by decide)
  · exact (C10_filter_dispatch 1 2 (by decide) (by decide) [(0, [1, 2, 3]), (2, [4, 5, 6])]
      (by decide) (by decide) (by decide)).2
      [(0, [1, 2, 3])] (2, [4, 5, 6]) [] rfl (by decide) (by decide)

/-! ## C1: encode/decode round trip for non-interlaced 8-bit RGB -/

/-- Inversion of `PngWriter.init` for the 8-bit RGB configuration. -/
theorem init_rgb8_fields (width height : Int) (transparent background : Option PyColor)
    (gamma : Option ℚ) (compression : Option Int) (chunk_limit : Nat) (w : PngWriter)
    (h : PngWriter.init width height transparent background gamma false false 1
      compression chunk_limit = .ok w) :
    w.width = width.toNat ∧ w.height = height.toNat ∧ w.transparent = transparent ∧
    w.background = background ∧ w.gamma = gamma ∧ w.greyscale = false ∧
    w.bytes_per_sample = 1 ∧ w.chunk_limit = chunk_limit ∧ w.color_type = 2 ∧
    w.psize = 3 ∧ 0 < width ∧ 0 < height ∧
    colorShapeErr false transparent = none ∧ colorShapeErr false background = none := by
  unfold PngWriter.init at h
  by_cases h1 : width ≤ 0 ∨ height ≤ 0
  · rw [if_pos h1] at h
    exact absurd h (by simp)
  rw [if_neg h1] at h
  rw [if_neg (by simp)] at h
  rw [if_neg (by norm_num)] at h
  rcases hct : colorShapeErr false transparent with _ | e1 <;> rw [hct] at h
  · rcases hcb : colorShapeErr false background with _ | e2 <;> rw [hcb] at h
    · simp only [Except.ok.injEq] at h
      subst h
      exact ⟨rfl, rfl, rfl, rfl, rfl, rfl, rfl, rfl, rfl, rfl, by omega, by omega, rfl, rfl⟩
    · exact absurd h (by simp)
  · exact absurd h (by simp)

theorem packColor16_bytes (g : Bool) (c : PyColor) : ∀ x ∈ packColor16 g c, x < 256 := by
  intro x hx
  rcases c with n | l <;> rcases g <;> simp [packColor16, packU16I, packU16] at hx
  · omega
  · obtain ⟨a, _, h2⟩ := hx
    rcases h2 with h2 | h2 <;> omega

theorem packColor16_tuple_length (l : List Int) :
    (packColor16 false (.tuple l)).length = 2 * l.length := by
  induction l with
  | nil => rfl
  | cons v t ih =>
    simp [packColor16, packU16I, packU16] at ih ⊢
    omega

theorem length_le_flatten (L : List (List Nat)) (p : List Nat) (hp : p ∈ L) :
    p.length ≤ L.flatten.length := by
  induction L with
  | nil => simp at hp
  | cons q t ih =>
    rw [List.flatten_cons, List.length_append]
    rcases List.mem_cons.mp hp with hpq | hpt
    · subst hpq
      omega
    · have := ih hpt
      omega

/-- Chunks are at least 12 bytes each. -/
theorem chunks_flatten_length_ge (tag : List Nat) (htag : tag.length = 4)
    (ps : List (List Nat)) :
    12 * ps.length ≤ ((ps.map (write_chunk tag)).flatten).length := by
  induction ps with
  | nil => simp
  | cons p t ih =>
    rw [List.map_cons, List.flatten_cons, List.length_append, List.length_cons]
    have hwc : (write_chunk tag p).length = 12 + p.length := by
      simp [write_chunk, packU32, htag]
      omega
    omega

/-- The sequential scanlines concatenate back to the pixel buffer. -/
theorem scanlines_flatten (hgt rb : Nat) :
    ∀ pixels : List Nat, pixels.length = hgt * rb →
      ((List.range hgt).map (fun y => pyGetSlice2 pixels (y * rb) ((y + 1) * rb))).flatten =
        pixels := by
  induction hgt with
  | zero =>
    intro pixels hlen
    simp only [Nat.zero_mul] at hlen
    rw [List.eq_nil_of_length_eq_zero hlen]
    simp
  | succ g ih =>
    intro pixels hlen
    rw [List.range_succ_eq_map]
    simp only [List.map_cons, List.map_map]
    have hrow0 : pyGetSlice2 pixels (0 * rb) ((0 + 1) * rb) = pixels.take rb := by
      unfold pyGetSlice2
      simp
    have hshift : ∀ y : Nat,
        pyGetSlice2 pixels ((y + 1) * rb) ((y + 1 + 1) * rb) =
          pyGetSlice2 (pixels.drop rb) (y * rb) ((y + 1) * rb) := by
      intro y
      unfold pyGetSlice2
      rw [List.drop_drop]
      have e2 : (y + 1 + 1) * rb - (y + 1) * rb = (y + 1) * rb - y * rb := by
        have a1 : (y + 1 + 1) * rb = (y + 1) * rb + rb := by ring
        have a2 : (y + 1) * rb = y * rb + rb := by ring
        omega
      rw [show rb + y * rb = (y + 1) * rb from by ring, e2]
    rw [List.flatten_cons, hrow0]
    have hcomp : (List.map ((fun y => pyGetSlice2 pixels (y * rb) ((y + 1) * rb)) ∘
        (fun x => x + 1)) (List.range g)) =
        List.map (fun y => pyGetSlice2 (pixels.drop rb) (y * rb) ((y + 1) * rb))
          (List.range g) := by
      apply List.map_congr_left
      intro y _
      simp only [Function.comp_apply]
      exact hshift y
    rw [hcomp, ih (pixels.drop rb) (by simp [hlen]; ring_nf; omega)]
    exact List.take_append_drop rb pixels

theorem pyGetSlice2_row_length (pixels : List Nat) (R hgt y : Nat) (hy : y < hgt)
    (hlen : pixels.length = hgt * R) :
    (pyGetSlice2 pixels (y * R) ((y + 1) * R)).length = R := by
  unfold pyGetSlice2
  rw [List.length_take, List.length_drop]
  have h1 : (y + 1) * R = y * R + R := by ring
  have h2 : (y + 1) * R ≤ hgt * R := Nat.mul_le_mul_right R (by omega)
  omega

theorem pyGetSlice2_subset (pixels : List Nat) (a b x : Nat)
    (hx : x ∈ pyGetSlice2 pixels a b) : x ∈ pixels :=
  List.mem_of_mem_drop (List.mem_of_mem_take hx)

theorem flatten_length_const (L : List (List Nat)) (c : Nat) (h : ∀ l ∈ L, l.length = c) :
    L.flatten.length = L.length * c := by
  induction L with
  | nil => simp
  | cons q t ih =>
    rw [List.flatten_cons, List.length_append, List.length_cons, h q (by simp),
      ih (fun l hl => h l (by simp [hl]))]
    ring

theorem shape_none_cases (c : Option PyColor) (h : colorShapeErr false c = none) :
    c = none ∨ ∃ l, c = some (.tuple l) ∧ l.length = 3 := by
  rcases c with _ | c
  · exact Or.inl rfl
  rcases c with n | l
  · simp [colorShapeErr] at h
  · simp [colorShapeErr] at h
    exact Or.inr ⟨l, rfl, h⟩

theorem ihdr_payload_bytes (a b : Nat) :
    ∀ x ∈ packU32 a ++ (packU32 b ++ [8, 2, 0, 0, 0]), x < 256 := by
  intro x hx
  simp only [List.mem_append] at hx
  rcases hx with hx | hx
  · exact packU32_bytes_lt _ _ hx
  rcases hx with hx | hx
  · exact packU32_bytes_lt _ _ hx
  · simp at hx
    omega

theorem chunkslist_flatten_length_ge (cs : List (List Nat × List Nat))
    (h : ∀ c ∈ cs, c.1.length = 4) :
    12 * cs.length ≤ ((cs.map (fun c => write_chunk c.1 c.2)).flatten).length := by
  induction cs with
  | nil => simp
  | cons c t ih =>
    rw [List.map_cons, List.flatten_cons, List.length_append, List.length_cons]
    have hwc : (write_chunk c.1 c.2).length = 12 + c.2.length := by
      simp [write_chunk, packU32, h c (by simp)]
      omega
    have := ih (fun c2 hc2 => h c2 (by simp [hc2]))
    omega

/-- The shape of `PngWriter.write` for a colour-mode writer, with the
optional chunks gathered into `optChunks`. -/
theorem write_rgb8_shape (w : PngWriter) (rows : List (List Nat))
    (hgrey : w.greyscale = false) :
    w.write rows false =
      pngSignature ++
        (write_chunk tagIHDR (packU32 w.width ++ (packU32 w.height ++
          [w.bytes_per_sample * 8 % 256, w.color_type % 256, 0, 0, 0])) ++
        (((optChunks w.transparent w.background w.gamma).map
            (fun c => write_chunk c.1 c.2)).flatten ++
        (((idatPayloads w.chunk_limit rows).map (write_chunk tagIDAT)).flatten ++
          write_chunk tagIEND []))) := by
  rcases ht : w.transparent with _ | c1 <;> rcases hb : w.background with _ | c2 <;>
    rcases hg : w.gamma with _ | g <;>
    simp [PngWriter.write, optChunks, ht, hb, hg, hgrey, List.append_assoc]

/-- C1: for every valid descriptor in the non-interlaced 8-bit RGB
configuration (greyscale and alpha off, one byte per sample; any transparent
colour, background colour, gamma, compression level and chunk limit the
constructor accepts) and every pixel buffer of 3·width·height bytes,
`Reader.read` applied to the stream `Writer.write` produces over the
buffer's scanlines returns the same width, the same height, and the original
buffer byte-for-byte.  (zlib is modelled from the spec as an invertible
streaming codec; the width/height and total-size bounds reflect the u32
fields `struct.pack` can represent.) -/
theorem C1_roundtrip (width height : Int) (transparent background : Option PyColor)
    (gamma : Option ℚ) (compression : Option Int) (chunk_limit : Nat) (w : PngWriter)
    (pixels : List Nat)
    (hinit : PngWriter.init width height transparent background gamma false false 1
      compression chunk_limit = .ok w)
    (hw32 : width.toNat < 2 ^ 32) (hh32 : height.toNat < 2 ^ 32)
    (hlen : pixels.length = 3 * width.toNat * height.toNat)
    (hbytes : ∀ b ∈ pixels, b < 256)
    (hsz : height.toNat * (1 + width.toNat * 3) < 2 ^ 32) :
    reader_read (w.write (w.array_scanlines pixels) false) =
      .ok (width.toNat, height.toNat, pixels) := by
  obtain ⟨hW, hH, hT, hB, hG, hgrey, hbps, hcl, hct2, hps, hwpos, hhpos, hshT, hshB⟩ :=
    init_rgb8_fields _ _ _ _ _ _ _ _ hinit
  set W := width.toNat with hWdef
  set Ht := height.toNat with hHdef
  set rows := w.array_scanlines pixels with hrows
  have hrowsdef : rows =
      (List.range Ht).map (fun y => pyGetSlice2 pixels (y * (W * 3)) ((y + 1) * (W * 3))) := by
    rw [hrows]
    unfold PngWriter.array_scanlines
    rw [hW, hH, hps]
  have hpixlen : pixels.length = Ht * (W * 3) := by
    rw [hlen]
    ring
  have hrowlen : ∀ r ∈ rows, r.length = W * 3 := by
    rw [hrowsdef]
    intro r hr
    rw [List.mem_map] at hr
    obtain ⟨y, hy, hyr⟩ := hr
    subst hyr
    exact pyGetSlice2_row_length _ _ Ht _ (List.mem_range.mp hy) hpixlen
  have hrowbytes : ∀ r ∈ rows, ∀ x ∈ r, x < 256 := by
    rw [hrowsdef]
    intro r hr x hx
    rw [List.mem_map] at hr
    obtain ⟨y, _, hyr⟩ := hr
    subst hyr
    exact hbytes x (pyGetSlice2_subset _ _ _ _ hx)
  have hrowcount : rows.length = Ht := by
    rw [hrowsdef]
    simp
  have hrowflat : rows.flatten = pixels := by
    rw [hrowsdef]
    exact scanlines_flatten Ht (W * 3) pixels hpixlen
  set payloads := idatPayloads w.chunk_limit rows with hpl
  have hpflat : payloads.flatten = (rows.map (fun r => 0 :: r)).flatten := by
    rw [hpl]
    unfold idatPayloads
    rw [idatLoop_flatten]
    simp
  have hDlen : ((rows.map (fun r => 0 :: r)).flatten).length = Ht * (1 + W * 3) := by
    rw [flatten_length_const _ (1 + W * 3) (by
      intro l hl
      rw [List.mem_map] at hl
      obtain ⟨r, hr, hrl⟩ := hl
      subst hrl
      simp [hrowlen r hr]
      omega)]
    simp [hrowcount]
  have hDbytes : ∀ x ∈ (rows.map (fun r => 0 :: r)).flatten, x < 256 := by
    intro x hx
    rw [List.mem_flatten] at hx
    obtain ⟨l, hl, hxl⟩ := hx
    rw [List.mem_map] at hl
    obtain ⟨r, hr, hrl⟩ := hl
    subst hrl
    rcases List.mem_cons.mp hxl with hxl | hxl
    · omega
    · exact hrowbytes r hr x hxl
  have hplprops : ∀ p ∈ payloads, p.length < 2 ^ 32 ∧ ∀ x ∈ p, x < 256 := by
    intro p hp
    constructor
    · have h1 := length_le_flatten payloads p hp
      rw [hpflat, hDlen] at h1
      omega
    · intro x hx
      exact hDbytes x (by rw [← hpflat]; exact List.mem_flatten.mpr ⟨p, hp, hx⟩)
  have hshape := write_rgb8_shape w rows hgrey
  rw [hW, hH, hbps, hct2, hT, hB, hG] at hshape
  rw [show [1 * 8 % 256, 2 % 256, 0, 0, 0] = ([8, 2, 0, 0, 0] : List Nat) from by norm_num]
    at hshape
  rw [← hpl] at hshape
  have hocs : ∀ c ∈ optChunks transparent background gamma,
      c.1.length = 4 ∧ c.2.length < 2 ^ 32 ∧ (∀ x ∈ c.1, x < 256) ∧ (∀ x ∈ c.2, x < 256) ∧
      c.1 ≠ tagIHDR ∧ c.1 ≠ tagIDAT ∧ c.1 ≠ tagIEND := by
    intro c hc
    unfold optChunks at hc
    rw [List.mem_append] at hc
    rcases hc with hc | hc
    · rw [List.mem_append] at hc
      rcases hc with hc | hc
      · rcases shape_none_cases transparent hshT with h1 | ⟨l1, h1, hl1⟩ <;> subst h1
        · simp at hc
        · simp only [List.mem_singleton] at hc
          subst hc
          refine ⟨?_, ?_, ?_, ?_, ?_, ?_, ?_⟩
          · show tagTRNS.length = 4
            decide
          · show (packColor16 false (.tuple l1)).length < 2 ^ 32
            rw [packColor16_tuple_length, hl1]
            norm_num
          · show ∀ x ∈ tagTRNS, x < 256
            decide
          · show ∀ x ∈ packColor16 false (.tuple l1), x < 256
            exact packColor16_bytes _ _
          · show tagTRNS ≠ tagIHDR
            decide
          · show tagTRNS ≠ tagIDAT
            decide
          · show tagTRNS ≠ tagIEND
            decide
      · rcases shape_none_cases background hshB with h1 | ⟨l2, h1, hl2⟩ <;> subst h1
        · simp at hc
        · simp only [List.mem_singleton] at hc
          subst hc
          refine ⟨?_, ?_, ?_, ?_, ?_, ?_, ?_⟩
          · show tagBKGD.length = 4
            decide
          · show (packColor16 false (.tuple l2)).length < 2 ^ 32
            rw [packColor16_tuple_length, hl2]
            norm_num
          · show ∀ x ∈ tagBKGD, x < 256
            decide
          · show ∀ x ∈ packColor16 false (.tuple l2), x < 256
            exact packColor16_bytes _ _
          · show tagBKGD ≠ tagIHDR
            decide
          · show tagBKGD ≠ tagIDAT
            decide
          · show tagBKGD ≠ tagIEND
            decide
    · rcases gamma with _ | g
      · simp at hc
      · simp only [List.mem_singleton] at hc
        subst hc
        refine ⟨?_, ?_, ?_, ?_, ?_, ?_, ?_⟩
        · show tagGAMA.length = 4
          decide
        · show (gammaChunkPayload g).length < 2 ^ 32
          norm_num [gammaChunkPayload, packU32]
        · show ∀ x ∈ tagGAMA, x < 256
          decide
        · show ∀ x ∈ gammaChunkPayload g, x < 256
          exact packU32_bytes_lt _
        · show tagGAMA ≠ tagIHDR
          decide
        · show tagGAMA ≠ tagIDAT
          decide
        · show tagGAMA ≠ tagIEND
          decide
  have hsig : ¬ (w.write rows false).take 8 ≠ pngSignature := by
    rw [hshape, take_append_of_length pngSignature _ 8 rfl]
    simp
  have hdrop8 : (w.write rows false).drop 8 =
      write_chunk tagIHDR (packU32 W ++ (packU32 Ht ++ [8, 2, 0, 0, 0])) ++
        (((optChunks transparent background gamma).map (fun c => write_chunk c.1 c.2)).flatten ++
        ((payloads.map (write_chunk tagIDAT)).flatten ++ write_chunk tagIEND [])) := by
    rw [hshape, drop_append_of_length pngSignature _ 8 rfl]
  have hchain : readChunksLoop
      ((1 + payloads.length + (optChunks transparent background gamma).length) + 1)
      ((w.write rows false).drop 8) none [] = .ok (some ⟨W, Ht⟩, payloads) := by
    rw [hdrop8]
    rw [readChunksLoop_step _ _ _ _ _ _ (by decide) (by norm_num [packU32]) (by decide)
      (ihdr_payload_bytes W Ht), if_pos rfl]
    simp only [parseIHDR_ok _ _ hw32 hh32]
    rw [readChunksLoop_ignored _ hocs (1 + payloads.length) _ _ _]
    rw [show (payloads.map (write_chunk tagIDAT)).flatten ++ write_chunk tagIEND [] =
      (payloads.map (write_chunk tagIDAT)).flatten ++ (write_chunk tagIEND [] ++ []) from by simp]
    rw [readChunksLoop_idats payloads hplprops 1 _ _ _]
    have hfin := readChunksLoop_iend 0 [] (some (⟨W, Ht⟩ : Ihdr)) ([] ++ payloads)
    simpa using hfin
  have hfuel : (1 + payloads.length + (optChunks transparent background gamma).length) + 1 ≤
      (w.write rows false).length := by
    rw [hshape]
    have h1 := chunkslist_flatten_length_ge (optChunks transparent background gamma)
      (fun c hc => (hocs c hc).1)
    have h2 := chunks_flatten_length_ge tagIDAT (by decide) payloads
    simp only [List.length_append]
    have h3 : (write_chunk tagIHDR (packU32 W ++ (packU32 Ht ++ [8, 2, 0, 0, 0]))).length = 25 := by
      simp [write_chunk, packU32, tagIHDR]
    have h4 : (write_chunk tagIEND []).length = 12 := by
      simp [write_chunk, packU32, tagIEND]
    have h5 : pngSignature.length = 8 := rfl
    omega
  have hloop := readChunksLoop_mono _ _ _ _ _ _ hfuel hchain
  have hrec : reconstructRows ((rows.map (fun r => 0 :: r)).flatten) (3 * W) Ht 0 [] =
      .ok pixels := by
    have h0 := reconstructRows_ok (3 * W) (rows.map (fun r => ((0 : Nat), r)))
      (by
        intro p hp
        rw [List.mem_map] at hp
        obtain ⟨r, hr, hrp⟩ := hp
        subst hrp
        have h := hrowlen r hr
        show r.length = 3 * W
        omega)
      (by
        intro p hp
        rw [List.mem_map] at hp
        obtain ⟨r, _, hrp⟩ := hp
        subst hrp
        simp)
      [] []
    have hmm : (rows.map (fun r => ((0 : Nat), r))).map (fun p => p.1 :: p.2) =
        rows.map (fun r => 0 :: r) := by
      simp
    have hmm2 : (rows.map (fun r => ((0 : Nat), r))).map (fun p => p.2) = rows := by
      simp
    rw [hmm, hmm2, List.nil_append, List.length_nil, List.length_map, hrowcount,
      hrowflat] at h0
    exact h0
  unfold reader_read
  rw [if_neg hsig]
  simp only [hloop]
  unfold zlibDecompress
  rw [hpflat]
  simp only [hrec]

theorem C1_roundtrip_witness :
    ∃ w : PngWriter,
      PngWriter.init 1 1 none none none false false 1 none (2 ^ 20) = .ok w ∧
      reader_read (w.write (w.array_scanlines [10, 20, 30]) false) =
        .ok (1, 1, [10, 20, 30]) := by
  refine ⟨_, rfl, ?_⟩
  exact C1_roundtrip 1 1 none none none none (2 ^ 20) _ [10, 20, 30] rfl (by decide)
    (by decide) (by decide) (by decide) (by decide)

/-! ## C3: Adam7 coverage and interlaced scanline generation

`pyRange` membership/count algebra, the per-pass coordinate count, pointwise
`getD` tooling for slices and flattened sample lists, the `interlaceRow`
fold invariant, and the per-pass/per-image equality between
`array_scanlines_interlace` and the spec-side `adam7Rows`. -/

theorem pyRange_mem_iff (s e st v : Nat) (hst : 0 < st) :
    v ∈ pyRange s e st ↔ s ≤ v ∧ v < e ∧ (v - s) % st = 0 := by
  unfold pyRange
  rw [List.mem_map]
  constructor
  · rintro ⟨k, hk, rfl⟩
    rw [List.mem_range] at hk
    refine ⟨Nat.le_add_right _ _, ?_, by
      simp [Nat.add_sub_cancel_left, Nat.mul_mod_left]⟩
    have h2 : (k + 1) * st ≤ e - s + st - 1 := (Nat.le_div_iff_mul_le hst).mp hk
    have h3 : st ≤ (k + 1) * st := Nat.le_mul_of_pos_left st (Nat.succ_pos k)
    have h4 : k * st + st = (k + 1) * st := by ring
    generalize hA : k * st = A at h4 ⊢
    generalize hB : (k + 1) * st = B at h2 h3 h4
    omega
  · rintro ⟨h1, h2, h3⟩
    have hdvd : st ∣ (v - s) := Nat.dvd_of_mod_eq_zero h3
    have hq : (v - s) / st * st = v - s := Nat.div_mul_cancel hdvd
    refine ⟨(v - s) / st, ?_, ?_⟩
    · rw [List.mem_range, Nat.lt_iff_add_one_le, Nat.le_div_iff_mul_le hst]
      have hr : ((v - s) / st + 1) * st = (v - s) / st * st + st := by ring
      generalize hA : (v - s) / st * st = A at hq hr
      generalize hB : ((v - s) / st + 1) * st = B at hr ⊢
      omega
    · rw [hq]; omega

theorem pyRange_nodup (s e st : Nat) (hst : 0 < st) : (pyRange s e st).Nodup := by
  unfold pyRange
  refine List.Nodup.map ?_ (List.nodup_range _)
  intro a b hab
  exact Nat.eq_of_mul_eq_mul_right hst (Nat.add_left_cancel hab)

theorem pyRange_count (s e st v : Nat) (hst : 0 < st) :
    (pyRange s e st).count v = if s ≤ v ∧ v < e ∧ (v - s) % st = 0 then 1 else 0 := by
  by_cases hv : v ∈ pyRange s e st
  · rw [List.count_eq_one_of_mem (pyRange_nodup s e st hst) hv,
      if_pos ((pyRange_mem_iff s e st v hst).mp hv)]
  · rw [List.count_eq_zero.mpr hv,
      if_neg (fun hc => hv ((pyRange_mem_iff s e st v hst).mpr hc))]

theorem count_flatMap (l : List Nat) (f : Nat → List (Nat × Nat)) (a : Nat × Nat) :
    (l.flatMap f).count a = (l.map (fun b => (f b).count a)).sum := by
  induction l with
  | nil => rfl
  | cons x t ih => simp [List.flatMap_cons, List.count_append, ih]

theorem count_map_pair (l : List Nat) (y2 x y : Nat) :
    (l.map (fun x2 => (x2, y2))).count (x, y) = if y2 = y then l.count x else 0 := by
  by_cases hy : y2 = y
  · subst hy
    rw [if_pos rfl]
    induction l with
    | nil => rfl
    | cons a t ih =>
      rw [List.map_cons]
      by_cases hax : a = x
      · subst hax
        rw [List.count_cons_self, List.count_cons_self, ih]
      · rw [List.count_cons_of_ne (fun hp => hax (congrArg Prod.fst hp).symm),
          List.count_cons_of_ne (fun hp => hax hp.symm), ih]
  · refine (if_neg hy) ▸ List.count_eq_zero.mpr (fun hmem => ?_)
    rw [List.mem_map] at hmem
    obtain ⟨x2, _, heq⟩ := hmem
    exact hy (congrArg Prod.snd heq)

theorem sum_map_ite (l : List Nat) (y c : Nat) :
    (l.map (fun y2 => if y2 = y then c else 0)).sum = c * l.count y := by
  induction l with
  | nil => simp
  | cons a t ih =>
    rw [List.map_cons, List.sum_cons, ih]
    by_cases hay : a = y
    · subst hay; rw [if_pos rfl, List.count_cons_self]; ring
    · rw [if_neg hay, List.count_cons_of_ne (fun h => hay h.symm)]; ring

theorem count_pass (w h xs ys xst yst x y : Nat) (hx : 0 < xst) (hy : 0 < yst) :
    ((pyRange ys h yst).flatMap
      (fun y2 => (pyRange xs w xst).map (fun x2 => (x2, y2)))).count (x, y) =
    if (ys ≤ y ∧ y < h ∧ (y - ys) % yst = 0) ∧ xs ≤ x ∧ x < w ∧ (x - xs) % xst = 0
    then 1 else 0 := by
  rw [count_flatMap]
  have hmap : ((pyRange ys h yst).map
      (fun y2 => ((pyRange xs w xst).map (fun x2 => (x2, y2))).count (x, y))) =
      (pyRange ys h yst).map (fun y2 => if y2 = y then (pyRange xs w xst).count x else 0) := by
    refine List.map_congr_left (fun y2 _ => ?_)
    exact count_map_pair _ y2 x y
  rw [hmap, sum_map_ite, pyRange_count xs w xst x hx, pyRange_count ys h yst y hy]
  by_cases hX : xs ≤ x ∧ x < w ∧ (x - xs) % xst = 0 <;>
    by_cases hY : ys ≤ y ∧ y < h ∧ (y - ys) % yst = 0 <;>
      simp [hX, hY]

set_option maxHeartbeats 2000000 in
theorem adam7_coverage (w h x y : Nat) (hx : x < w) (hy : y < h) :
    (adam7Coords w h).count (x, y) = 1 := by
  unfold adam7Coords adam7
  simp only [List.flatMap_cons, List.flatMap_nil, List.append_nil, List.count_append]
  rw [count_pass w h 0 0 8 8 x y (by omega) (by omega),
      count_pass w h 4 0 8 8 x y (by omega) (by omega),
      count_pass w h 0 4 4 8 x y (by omega) (by omega),
      count_pass w h 2 0 4 4 x y (by omega) (by omega),
      count_pass w h 0 2 2 4 x y (by omega) (by omega),
      count_pass w h 1 0 2 2 x y (by omega) (by omega),
      count_pass w h 0 1 1 2 x y (by omega) (by omega)]
  split_ifs <;> omega

theorem list_ext_getD (l1 l2 : List Nat) (hl : l1.length = l2.length)
    (h : ∀ j, j < l1.length → l1.getD j 0 = l2.getD j 0) : l1 = l2 := by
  apply List.ext_getElem hl
  intro i h1 h2
  have hj := h i h1
  rwa [List.getD_eq_getElem l1 0 h1, List.getD_eq_getElem l2 0 h2] at hj

theorem range_map_getD (n j : Nat) (f : Nat → Nat) (hj : j < n) :
    ((List.range n).map f).getD j 0 = f j := by
  rw [List.getD_eq_getElem _ _ (by simpa using hj)]
  simp

theorem getD_take (l : List Nat) (n j : Nat) (hj : j < n) (hl : j < l.length) :
    (l.take n).getD j 0 = l.getD j 0 := by
  rw [List.getD_eq_getElem _ _ (by simp [List.length_take]; omega),
    List.getD_eq_getElem _ _ hl]
  exact List.getElem_take l

theorem take_eq_map_getD (l : List Nat) (n : Nat) (hn : n ≤ l.length) :
    l.take n = (List.range n).map (fun j => l.getD j 0) := by
  apply list_ext_getD
  · simp [List.length_take]
    omega
  · intro j hj
    rw [List.length_take] at hj
    have hj' : j < n := lt_of_lt_of_le hj (min_le_left _ _)
    rw [getD_take l n j hj' (by omega), range_map_getD n j _ hj']

theorem pyGetSlice2_getD (l : List Nat) (a b j : Nat) (hj : j < b - a) (hb : b ≤ l.length) :
    (pyGetSlice2 l a b).getD j 0 = l.getD (a + j) 0 := by
  unfold pyGetSlice2
  rw [getD_take _ _ _ hj (by rw [List.length_drop]; omega)]
  rw [List.getD_eq_getElem _ _ (by rw [List.length_drop]; omega),
    List.getD_eq_getElem _ _ (by omega : a + j < l.length)]
  exact List.getElem_drop l

theorem pyGetSlice2_length (l : List Nat) (a b : Nat) (hb : b ≤ l.length) :
    (pyGetSlice2 l a b).length = b - a := by
  unfold pyGetSlice2
  rw [List.length_take, List.length_drop]
  omega

theorem pyRange_length (s e st : Nat) :
    (pyRange s e st).length = (e - s + st - 1) / st := by
  simp [pyRange]

theorem pyRange_getD (s e st k : Nat) (hk : k < (e - s + st - 1) / st) :
    (pyRange s e st).getD k 0 = s + k * st := by
  unfold pyRange
  exact range_map_getD _ k _ hk

theorem flatten_uniform_getD (p : Nat) (hp : 0 < p) :
    ∀ (L : List (List Nat)), (∀ l ∈ L, l.length = p) → ∀ j, j < L.length * p →
    L.flatten.getD j 0 = (L.getD (j / p) []).getD (j % p) 0 := by
  intro L
  induction L with
  | nil =>
    intro _ j hj
    simp at hj
  | cons l t ih =>
    intro hL j hj
    rw [List.flatten_cons]
    have hlp : l.length = p := hL l (List.mem_cons_self l t)
    by_cases hjp : j < p
    · rw [List.getD_append _ _ _ _ (by omega), Nat.div_eq_of_lt hjp, Nat.mod_eq_of_lt hjp]
      simp
    · have hjj : j - p + p = j := by omega
      have h1 : (l ++ t.flatten).getD j 0 = t.flatten.getD (j - p) 0 := by
        conv_lhs => rw [← hjj, ← hlp]
        rw [Nat.add_comm, getD_append_add, hlp]
      have h2 : j / p = (j - p) / p + 1 := by
        conv_lhs => rw [← hjj]
        exact Nat.add_div_right _ hp
      have h3 : j % p = (j - p) % p := by
        conv_lhs => rw [← hjj]
        exact Nat.add_mod_right _ _
      rw [h1, h2, h3, List.getD_cons_succ]
      refine ih (fun l2 hl2 => hL l2 (List.mem_cons_of_mem _ hl2)) (j - p) ?_
      have hlen : (l :: t).length * p = t.length * p + p := by
        rw [List.length_cons]
        ring
      generalize hA : t.length * p = A at hlen ⊢
      generalize hB : (l :: t).length * p = B at hlen hj
      omega

theorem ceil_slice_eq (psize xst u i : Nat) (hp : 0 < psize) (hx : 0 < xst)
    (hu : 0 < u) (hi : i < psize) :
    (psize * u - i + psize * xst - 1) / (psize * xst) = (u + xst - 1) / xst := by
  have hdm := Nat.div_add_mod (u + xst - 1) xst
  have hmlt : (u + xst - 1) % xst < xst := Nat.mod_lt _ hx
  have hu1 : u ≤ xst * ((u + xst - 1) / xst) := by omega
  have hu2 : xst * ((u + xst - 1) / xst) ≤ u + xst - 1 := by omega
  refine Nat.div_eq_of_lt_le ?_ ?_
  · have e1 : ((u + xst - 1) / xst) * (psize * xst) =
        psize * (xst * ((u + xst - 1) / xst)) := by ring
    have e2 : psize * (xst * ((u + xst - 1) / xst)) ≤ psize * (u + xst - 1) :=
      Nat.mul_le_mul_left psize hu2
    have e3 : psize * (u + xst - 1) + psize = psize * (u + xst - 1 + 1) := by ring
    have e4 : u + xst - 1 + 1 = u + xst := by omega
    rw [e4] at e3
    have e5 : psize * (u + xst) = psize * u + psize * xst := by ring
    have e6 : psize ≤ psize * u := Nat.le_mul_of_pos_right psize hu
    omega
  · have f1 : ((u + xst - 1) / xst + 1) * (psize * xst) =
        psize * (xst * ((u + xst - 1) / xst)) + psize * xst := by ring
    have f2 : psize * u ≤ psize * (xst * ((u + xst - 1) / xst)) :=
      Nat.mul_le_mul_left psize hu1
    have f3 : 0 < psize * xst := Nat.mul_pos hp hx
    omega

theorem ceil_div_le (u xst : Nat) (hu : 0 < u) (hx : 0 < xst) :
    (u + xst - 1) / xst ≤ u := by
  have h2 : u ≤ u * xst := Nat.le_mul_of_pos_right u hx
  have h3 : (u + 1) * xst = u * xst + xst := by ring
  have h1 : u + xst - 1 < (u + 1) * xst := by omega
  have h4 : (u + xst - 1) / xst < u + 1 := (Nat.div_lt_iff_lt_mul hx).mpr h1
  omega

theorem ceil_div_pos (u xst : Nat) (hu : 0 < u) (hx : 0 < xst) :
    0 < (u + xst - 1) / xst := by
  have h1 : xst ≤ u + xst - 1 := by omega
  have h2 : 1 * xst ≤ u + xst - 1 := by omega
  have h3 : 1 ≤ (u + xst - 1) / xst := (Nat.le_div_iff_mul_le hx).mpr h2
  omega

theorem src_slice_count (pixels : List Nat) (psize w h xs xst y i : Nat)
    (hp : 0 < psize) (hx : 0 < xst) (hxw : xs < w) (hy : y < h) (hi : i < psize)
    (hlen : pixels.length = h * (psize * w)) :
    pySliceCount (y * (psize * w) + xs * psize + i) ((y + 1) * (psize * w)) (psize * xst)
      pixels.length = (w - xs + xst - 1) / xst := by
  unfold pySliceCount
  rw [hlen]
  have hmin : min ((y + 1) * (psize * w)) (h * (psize * w)) = (y + 1) * (psize * w) :=
    min_eq_left (Nat.mul_le_mul_right _ (by omega))
  rw [hmin]
  have e0 : (y + 1) * (psize * w) = y * (psize * w) + psize * w := by ring
  have e2 : w - xs + xs = w := by omega
  have e1 : psize * (w - xs) + psize * xs = psize * w := by
    calc psize * (w - xs) + psize * xs = psize * (w - xs + xs) := by ring
      _ = psize * w := by rw [e2]
  have e3 : xs * psize = psize * xs := by ring
  have e4 : (y + 1) * (psize * w) - (y * (psize * w) + xs * psize + i) + psize * xst - 1
      = psize * (w - xs) - i + psize * xst - 1 := by omega
  rw [e4, ceil_slice_eq psize xst (w - xs) i hp hx (by omega) hi]

theorem src_slice_getD (pixels : List Nat) (psize w h xs xst y i k : Nat)
    (hp : 0 < psize) (hx : 0 < xst) (hxw : xs < w) (hy : y < h) (hi : i < psize)
    (hlen : pixels.length = h * (psize * w)) (hk : k < (w - xs + xst - 1) / xst) :
    (pyGetSliceS pixels (y * (psize * w) + xs * psize + i) ((y + 1) * (psize * w))
      (psize * xst)).getD k 0
      = pixels.getD (y * (psize * w) + xs * psize + i + k * (psize * xst)) 0 := by
  unfold pyGetSliceS
  rw [src_slice_count pixels psize w h xs xst y i hp hx hxw hy hi hlen]
  exact range_map_getD _ k _ hk

theorem except_ok_bind {α β : Type} (a : α) (g : α → Except PyErr β) :
    ((Except.ok a : Except PyErr α) >>= g) = g a := rfl

theorem foldlM_singleton (f : List Nat → Nat → Except PyErr (List Nat))
    (a : List Nat) (i : Nat) : [i].foldlM f a = f a i := by
  simp only [List.foldlM_cons, List.foldlM_nil]
  exact bind_pure _

theorem interlaceRow_fold (pixels : List Nat) (psize w h xs xst y : Nat)
    (hp : 0 < psize) (hx : 0 < xst) (hxw : xs < w) (hy : y < h)
    (hlen : pixels.length = h * (psize * w)) :
    ∀ m, m ≤ psize →
      (List.range m).foldlM
        (fun row i => pySetSliceE row i (psize * ((w - xs + xst - 1) / xst)) psize
          (pyGetSliceS pixels (y * (psize * w) + xs * psize + i) ((y + 1) * (psize * w))
            (psize * xst)))
        (pixels.take (psize * ((w - xs + xst - 1) / xst))) =
      .ok ((List.range (psize * ((w - xs + xst - 1) / xst))).map (fun j =>
        if j % psize < m then
          pixels.getD (y * (psize * w) + xs * psize + j % psize + j / psize * (psize * xst)) 0
        else pixels.getD j 0)) := by
  have hnx : 0 < (w - xs + xst - 1) / xst := ceil_div_pos (w - xs) xst (by omega) hx
  have hnxle : (w - xs + xst - 1) / xst ≤ w - xs := ceil_div_le (w - xs) xst (by omega) hx
  have hrow_le : psize * ((w - xs + xst - 1) / xst) ≤ pixels.length := by
    have h1 : psize * ((w - xs + xst - 1) / xst) ≤ psize * (w - xs) :=
      Nat.mul_le_mul_left psize hnxle
    have h2 : psize * (w - xs) ≤ psize * w := Nat.mul_le_mul_left psize (by omega)
    have h3 : psize * w ≤ h * (psize * w) := Nat.le_mul_of_pos_left _ (by omega)
    omega
  intro m
  induction m with
  | zero =>
    intro _
    rw [List.range_zero, List.foldlM_nil]
    have hlist : pixels.take (psize * ((w - xs + xst - 1) / xst)) =
        (List.range (psize * ((w - xs + xst - 1) / xst))).map (fun j =>
          if j % psize < 0 then
            pixels.getD (y * (psize * w) + xs * psize + j % psize + j / psize * (psize * xst)) 0
          else pixels.getD j 0) := by
      rw [take_eq_map_getD pixels _ hrow_le]
      exact List.map_congr_left fun j hj => (if_neg (Nat.not_lt_zero _)).symm
    rw [hlist]
    rfl
  | succ m ih =>
    intro hm
    rw [List.range_succ, List.foldlM_append, ih (by omega)]
    simp only [except_ok_bind, foldlM_singleton]
    set nx := (w - xs + xst - 1) / xst with hnxdef
    set A := (List.range (psize * nx)).map (fun j =>
        if j % psize < m then
          pixels.getD (y * (psize * w) + xs * psize + j % psize + j / psize * (psize * xst)) 0
        else pixels.getD j 0) with hAdef
    have hAlen : A.length = psize * nx := by rw [hAdef]; simp
    have hsrclen : (pyGetSliceS pixels (y * (psize * w) + xs * psize + m)
        ((y + 1) * (psize * w)) (psize * xst)).length = nx := by
      rw [pyGetSliceS_length,
        src_slice_count pixels psize w h xs xst y m hp hx hxw hy (by omega) hlen]
    have hcount : pySliceCount m (psize * nx) psize A.length = nx := by
      rw [hAlen]
      unfold pySliceCount
      rw [Nat.min_self]
      have hmul : psize * nx = nx * psize := by ring
      rw [hmul, ceil_count_eq nx psize m (by omega)]
    unfold pySetSliceE
    rw [if_pos (hcount.trans hsrclen.symm), hAlen, Nat.min_self]
    refine congrArg Except.ok (List.map_congr_left fun j hj => ?_)
    rw [List.mem_range] at hj
    have hdm := Nat.div_add_mod j psize
    have hjm : j % psize < psize := Nat.mod_lt _ hp
    have hjdiv : j / psize < nx := by
      rw [Nat.div_lt_iff_lt_mul hp]
      have hmul2 : nx * psize = psize * nx := by ring
      omega
    have hAget : A.getD j 0 = (if j % psize < m then
        pixels.getD (y * (psize * w) + xs * psize + j % psize + j / psize * (psize * xst)) 0
      else pixels.getD j 0) := by
      rw [hAdef]
      exact range_map_getD _ j _ hj
    by_cases hc : j % psize = m
    · have hmlej : m ≤ j := by omega
      have hsub : j - m = psize * (j / psize) := by omega
      have hmod0 : (j - m) % psize = 0 := by
        rw [hsub]
        exact Nat.mul_mod_right _ _
      have hdiv2 : (j - m) / psize = j / psize := by
        rw [hsub]
        exact Nat.mul_div_cancel_left _ hp
      rw [if_pos ⟨hmlej, by omega, hmod0⟩, hdiv2,
        src_slice_getD pixels psize w h xs xst y m (j / psize) hp hx hxw hy (by omega) hlen hjdiv,
        if_pos (by omega : j % psize < m + 1), hc]
    · have hnotc : ¬ (m ≤ j ∧ j < psize * nx ∧ (j - m) % psize = 0) := by
        rintro ⟨h1, h2, h3⟩
        obtain ⟨t, ht⟩ := Nat.dvd_of_mod_eq_zero h3
        have hjt : j = m + psize * t := by omega
        have hmm : j % psize = m % psize := by
          rw [hjt]
          exact Nat.add_mul_mod_self_left m psize t
        rw [Nat.mod_eq_of_lt (by omega : m < psize)] at hmm
        exact hc hmm
      rw [if_neg hnotc, hAget]
      by_cases h2 : j % psize < m
      · rw [if_pos h2, if_pos (by omega)]
      · rw [if_neg h2, if_neg (by omega)]

theorem getD_map_list (r : List Nat) (f : Nat → List Nat) (k : Nat) (hk : k < r.length) :
    (r.map f).getD k [] = f (r.getD k 0) := by
  rw [List.getD_eq_getElem _ _ (by simpa using hk), List.getElem_map,
    List.getD_eq_getElem _ _ hk]

theorem sampleAt_length (pixels : List Nat) (psize w h x y : Nat) (hp : 0 < psize)
    (hxw : x < w) (hy : y < h) (hlen : pixels.length = h * (psize * w)) :
    (sampleAt pixels psize w x y).length = psize := by
  unfold sampleAt
  have e1 : x * psize + psize = (x + 1) * psize := by ring
  have e2 : (x + 1) * psize ≤ w * psize := Nat.mul_le_mul_right psize (by omega)
  have e3 : w * psize = psize * w := by ring
  have e4 : y * (psize * w) + psize * w = (y + 1) * (psize * w) := by ring
  have e5 : (y + 1) * (psize * w) ≤ h * (psize * w) := Nat.mul_le_mul_right _ (by omega)
  rw [pyGetSlice2_length _ _ _ (by omega)]
  omega

theorem sampleAt_getD (pixels : List Nat) (psize w h x y r : Nat) (hp : 0 < psize)
    (hxw : x < w) (hy : y < h) (hr : r < psize) (hlen : pixels.length = h * (psize * w)) :
    (sampleAt pixels psize w x y).getD r 0 =
      pixels.getD (y * (psize * w) + x * psize + r) 0 := by
  unfold sampleAt
  have e1 : x * psize + psize = (x + 1) * psize := by ring
  have e2 : (x + 1) * psize ≤ w * psize := Nat.mul_le_mul_right psize (by omega)
  have e3 : w * psize = psize * w := by ring
  have e4 : y * (psize * w) + psize * w = (y + 1) * (psize * w) := by ring
  have e5 : (y + 1) * (psize * w) ≤ h * (psize * w) := Nat.mul_le_mul_right _ (by omega)
  rw [pyGetSlice2_getD pixels _ _ r (by omega) (by omega)]

theorem interlace_row_eq_samples (pixels : List Nat) (psize w h xs xst y : Nat)
    (hp : 0 < psize) (hx : 0 < xst) (hxw : xs < w) (hy : y < h)
    (hlen : pixels.length = h * (psize * w)) :
    ((List.range (psize * ((w - xs + xst - 1) / xst))).map (fun j =>
        if j % psize < psize then
          pixels.getD (y * (psize * w) + xs * psize + j % psize + j / psize * (psize * xst)) 0
        else pixels.getD j 0)) =
      ((pyRange xs w xst).map (fun x => sampleAt pixels psize w x y)).flatten := by
  have hsampLen : ∀ l ∈ (pyRange xs w xst).map (fun x => sampleAt pixels psize w x y),
      l.length = psize := by
    intro l hl
    rw [List.mem_map] at hl
    obtain ⟨x, hxmem, rfl⟩ := hl
    have hxlt : x < w := ((pyRange_mem_iff xs w xst x hx).mp hxmem).2.1
    exact sampleAt_length pixels psize w h x y hp hxlt hy hlen
  have hmapLen : ((pyRange xs w xst).map (fun x => sampleAt pixels psize w x y)).length
      = (w - xs + xst - 1) / xst := by
    rw [List.length_map, pyRange_length]
  have hflatLen : (((pyRange xs w xst).map
      (fun x => sampleAt pixels psize w x y)).flatten).length
      = (w - xs + xst - 1) / xst * psize := by
    rw [flatten_length_const _ psize hsampLen, hmapLen]
  apply list_ext_getD
  · rw [List.length_map, List.length_range, hflatLen]
    ring
  · intro j hj
    rw [List.length_map, List.length_range] at hj
    rw [range_map_getD _ j _ hj, if_pos (Nat.mod_lt _ hp)]
    have hcomm : (w - xs + xst - 1) / xst * psize = psize * ((w - xs + xst - 1) / xst) := by
      ring
    have hk : j / psize < (w - xs + xst - 1) / xst := by
      rw [Nat.div_lt_iff_lt_mul hp]
      omega
    rw [flatten_uniform_getD psize hp _ hsampLen j (by rw [hmapLen]; omega),
      getD_map_list _ _ _ (by rw [pyRange_length]; exact hk),
      pyRange_getD xs w xst (j / psize) hk]
    have hxmem : xs + j / psize * xst ∈ pyRange xs w xst := by
      rw [← pyRange_getD xs w xst (j / psize) hk,
        List.getD_eq_getElem _ _ (by rw [pyRange_length]; exact hk)]
      exact List.getElem_mem _
    have hxlt : xs + j / psize * xst < w :=
      ((pyRange_mem_iff xs w xst _ hx).mp hxmem).2.1
    rw [sampleAt_getD pixels psize w h _ y (j % psize) hp hxlt hy (Nat.mod_lt _ hp) hlen]
    congr 1
    ring

theorem row1_eq_samples (pixels : List Nat) (psize w h y : Nat) (hp : 0 < psize)
    (hw : 0 < w) (hy : y < h) (hlen : pixels.length = h * (psize * w)) :
    pyGetSlice2 pixels (y * (psize * w)) ((y + 1) * (psize * w)) =
      ((pyRange 0 w 1).map (fun x => sampleAt pixels psize w x y)).flatten := by
  have hrangelen : (pyRange 0 w 1).length = w := by
    rw [pyRange_length]
    omega
  have hsampLen : ∀ l ∈ (pyRange 0 w 1).map (fun x => sampleAt pixels psize w x y),
      l.length = psize := by
    intro l hl
    rw [List.mem_map] at hl
    obtain ⟨x, hxmem, rfl⟩ := hl
    have hxlt : x < w := ((pyRange_mem_iff 0 w 1 x (by omega)).mp hxmem).2.1
    exact sampleAt_length pixels psize w h x y hp hxlt hy hlen
  have hemaplen : ((pyRange 0 w 1).map (fun x => sampleAt pixels psize w x y)).length = w := by
    rw [List.length_map, hrangelen]
  have hub : (y + 1) * (psize * w) ≤ pixels.length := by
    rw [hlen]
    exact Nat.mul_le_mul_right _ (by omega)
  have he : (y + 1) * (psize * w) = y * (psize * w) + psize * w := by ring
  apply list_ext_getD
  · rw [pyGetSlice2_row_length pixels (psize * w) h y hy hlen,
      flatten_length_const _ psize hsampLen, hemaplen]
    ring
  · intro j hj
    rw [pyGetSlice2_row_length pixels (psize * w) h y hy hlen] at hj
    rw [pyGetSlice2_getD pixels _ _ j (by omega) hub]
    have hwp : w * psize = psize * w := by ring
    have hk : j / psize < w := by
      rw [Nat.div_lt_iff_lt_mul hp]
      omega
    rw [flatten_uniform_getD psize hp _ hsampLen j (by rw [hemaplen]; omega),
      getD_map_list _ _ _ (by rw [hrangelen]; exact hk),
      pyRange_getD 0 w 1 (j / psize) (by omega)]
    have hzero : 0 + j / psize * 1 = j / psize := by omega
    rw [hzero,
      sampleAt_getD pixels psize w h (j / psize) y (j % psize) hp hk hy (Nat.mod_lt _ hp) hlen]
    have hdm := Nat.div_add_mod j psize
    have hmc : j / psize * psize = psize * (j / psize) := by ring
    congr 1
    omega

theorem interlaceRow_spec (pixels : List Nat) (psize w h xs xst y : Nat)
    (hp : 0 < psize) (hx : 0 < xst) (h1 : xst = 1 → xs = 0)
    (hxw : xs < w) (hy : y < h) (hlen : pixels.length = h * (psize * w)) :
    interlaceRow pixels psize (psize * w) w xs xst y =
      .ok (((pyRange xs w xst).map (fun x => sampleAt pixels psize w x y)).flatten) := by
  unfold interlaceRow
  by_cases hx1 : xst = 1
  · have hxs0 := h1 hx1
    subst hx1
    subst hxs0
    rw [if_pos rfl]
    exact congrArg Except.ok (row1_eq_samples pixels psize w h y hp (by omega) hy hlen)
  · rw [if_neg hx1]
    exact (interlaceRow_fold pixels psize w h xs xst y hp hx hxw hy hlen psize
        (Nat.le_refl psize)).trans
      (congrArg Except.ok (interlace_row_eq_samples pixels psize w h xs xst y hp hx hxw hy hlen))

theorem foldlM_rows (f : Nat → Except PyErr (List Nat)) (g : Nat → List Nat) :
    ∀ (L : List Nat), (∀ y ∈ L, f y = .ok (g y)) → ∀ acc : List (List Nat),
      L.foldlM (fun acc y => do
        let row ← f y
        Except.ok (acc ++ [row])) acc = .ok (acc ++ L.map g) := by
  intro L
  induction L with
  | nil =>
    intro _ acc
    rw [List.foldlM_nil, List.map_nil, List.append_nil]
    rfl
  | cons a t ih =>
    intro hf acc
    simp only [List.foldlM_cons, hf a (List.mem_cons_self a t), except_ok_bind]
    rw [ih (fun y hy => hf y (List.mem_cons_of_mem a hy)) (acc ++ [g a]),
      List.map_cons]
    simp [List.append_assoc]

theorem interlacePass_spec (pixels : List Nat) (psize w h xs ys xst yst : Nat)
    (hp : 0 < psize) (hx : 0 < xst) (hys : 0 < yst) (h1 : xst = 1 → xs = 0)
    (hlen : pixels.length = h * (psize * w)) :
    interlacePass pixels psize (psize * w) w h (xs, ys, xst, yst) =
      .ok (if xs ≥ w then []
        else (pyRange ys h yst).map
          (fun y => ((pyRange xs w xst).map
            (fun x => sampleAt pixels psize w x y)).flatten)) := by
  unfold interlacePass
  by_cases hxw : xs ≥ w
  · rw [if_pos hxw]
    have hconst : ∀ (L : List Nat) (acc : List (List Nat)),
        L.foldlM (fun (acc : List (List Nat)) (_ : Nat) =>
          (Except.ok acc : Except PyErr (List (List Nat)))) acc = .ok acc := by
      intro L
      induction L with
      | nil => intro acc; rfl
      | cons a t ih =>
        intro acc
        simp only [List.foldlM_cons, except_ok_bind]
        exact ih acc
    simp only [if_pos hxw]
    exact hconst _ []
  · rw [if_neg hxw]
    have hf : ∀ y ∈ pyRange ys h yst,
        interlaceRow pixels psize (psize * w) w xs xst y =
          .ok (((pyRange xs w xst).map (fun x => sampleAt pixels psize w x y)).flatten) := by
      intro y hy
      have hyh : y < h := ((pyRange_mem_iff ys h yst y hys).mp hy).2.1
      exact interlaceRow_spec pixels psize w h xs xst y hp hx h1 (by omega) hyh hlen
    have hfold := foldlM_rows (fun y => interlaceRow pixels psize (psize * w) w xs xst y)
      (fun y => ((pyRange xs w xst).map (fun x => sampleAt pixels psize w x y)).flatten)
      (pyRange ys h yst) hf []
    rw [List.nil_append] at hfold
    simp only [if_neg hxw]
    exact hfold

/-- C3: for every image with positive width, height and pixel size and a
raster buffer of exactly `h * (psize * w)` bytes, (1) the seven Adam7 passes
`(0,0,8,8), (4,0,8,8), (0,4,4,8), (2,0,4,4), (0,2,2,4), (1,0,2,2), (0,1,1,2)`,
in that order, emit every pixel coordinate of the grid exactly once (count 1
in the emitted coordinate list - no duplicates, no omissions), and (2) the
interlaced scanline generator `array_scanlines_interlace` succeeds and yields,
for each pass, exactly the `psize`-byte samples of the selected coordinates in
raster order (`adam7Rows`). -/
theorem C3_adam7_exact (pixels : List Nat) (psize w h : Nat) (hp : 0 < psize)
    (hw : 0 < w) (hh : 0 < h) (hlen : pixels.length = h * (psize * w)) :
    (∀ x, x < w → ∀ y, y < h → (adam7Coords w h).count (x, y) = 1) ∧
    array_scanlines_interlace pixels psize w h = .ok (adam7Rows pixels psize w h) := by
  refine ⟨fun x hx y hy => adam7_coverage w h x y hx hy, ?_⟩
  unfold array_scanlines_interlace adam7Rows
  simp only [adam7, List.foldlM_cons, List.foldlM_nil, List.flatMap_cons, List.flatMap_nil,
    interlacePass_spec pixels psize w h 0 0 8 8 hp (by omega) (by omega) (by omega) hlen,
    interlacePass_spec pixels psize w h 4 0 8 8 hp (by omega) (by omega) (by omega) hlen,
    interlacePass_spec pixels psize w h 0 4 4 8 hp (by omega) (by omega) (by omega) hlen,
    interlacePass_spec pixels psize w h 2 0 4 4 hp (by omega) (by omega) (by omega) hlen,
    interlacePass_spec pixels psize w h 0 2 2 4 hp (by omega) (by omega) (by omega) hlen,
    interlacePass_spec pixels psize w h 1 0 2 2 hp (by omega) (by omega) (by omega) hlen,
    interlacePass_spec pixels psize w h 0 1 1 2 hp (by omega) (by omega) (by omega) hlen,
    except_ok_bind, bind_pure, List.append_nil, List.nil_append, List.append_assoc]

theorem C3_adam7_exact_witness :
    (∀ x, x < 2 → ∀ y, y < 2 → (adam7Coords 2 2).count (x, y) = 1) ∧
    array_scanlines_interlace [1, 2, 3, 4] 1 2 2 = .ok (adam7Rows [1, 2, 3, 4] 1 2 2) :=
  C3_adam7_exact [1, 2, 3, 4] 1 2 2 (by decide) (by decide) (by decide) (by decide)
